import Mathlib

/-!
Verification of the polynomial-python repository (`polynomial.py`).

The Python module is shallowly embedded below:

* `PolySrc.Polynomial` models the `Polynomial` class (`coeffs : List Int`,
  `disp_ch : String`), with `add`/`sub`/`mul`/`derivative` translating
  `__add__`/`__sub__`/`__mul__`/`derivative` and `toStr` translating `__str__`.
* `PolySrc.getNextToken` models `_Lexer.get_next_token` (the lexer's only state
  is the cursor `pos`; `current_char` is recomputed from it on every call).
* `PolySrc.parse_node`, `PolySrc.parse_addop`, `PolySrc.parseLoop` model
  `_Parser.parse_node`, `_Parser.parse_addop` and the `parse` loop.
* `PolySrc.normalizeAst` and `PolySrc.from_string` model the normalization and
  validation part of `Polynomial.from_string`.

Python runtime failures are modelled explicitly by `PolySrc.PyErr`: every
`raise ParseError(...)` site gets its own constructor carrying the data that
the message interpolates, and the unhandled runtime exceptions the code can
actually produce (`AssertionError` from the bare `assert` in `parse_node`,
`UnboundLocalError` from `parse_addop`'s `return ret`, `AttributeError` from
`None.isdigit()` after the whitespace skip, `ValueError` from `max([])`) are
modelled as separate constructors.

Character classification uses Lean's ASCII `Char.isDigit`/`Char.isAlpha`/
`Char.isWhitespace`, which agree with Python's `str.isdigit`/`isalpha`/
`isspace` on all ASCII inputs exercised here.
-/

namespace PolySrc

/-- Decimal digits, fuel-based so the kernel can evaluate it (the fuel `n + 1`
always suffices, see `natDigs_unfold`). -/
def natDigsF : Nat → Nat → List Char
  | 0, _ => []
  | f + 1, n =>
    if n < 10 then [Nat.digitChar n]
    else natDigsF f (n / 10) ++ [Nat.digitChar (n % 10)]

/-- Decimal digits of a natural number, most significant first: the character
sequence Python's `str` produces for a non-negative `int`. -/
def natDigs (n : Nat) : List Char := natDigsF (n + 1) n

def natStr (n : Nat) : String := ⟨natDigs n⟩

/-- Python `str` on an `int`: a minus sign followed by the decimal digits of
the absolute value when negative, the decimal digits otherwise. -/
def intStr (i : Int) : String :=
  if i < 0 then "-" ++ natStr i.natAbs else natStr i.natAbs

/-- Python `int(...)` applied to a string of decimal digits. -/
def digitsToNat (l : List Char) : Nat :=
  l.foldl (fun a c => 10 * a + (c.toNat - 48)) 0

/-- `str.replace("+ -", "- ")`: Python replaces non-overlapping occurrences
left to right; specialised to the fixed pattern used in `__str__`. -/
def replacePlusMinus : List Char → List Char
  | '+' :: ' ' :: '-' :: rest => '-' :: ' ' :: replacePlusMinus rest
  | c :: rest => c :: replacePlusMinus rest
  | [] => []

/-- `" + ".join(...)` from `__str__`. -/
def joinPlus : List String → String
  | [] => ""
  | [s] => s
  | s :: t :: rest => s ++ " + " ++ joinPlus (t :: rest)

/-- The `Polynomial` class: `coeffs` ascending by power, `disp_ch` the display
symbol (class default `'x'`). -/
structure Polynomial where
  coeffs : List Int
  disp_ch : String
deriving DecidableEq, Repr

/-- `Polynomial.__init__`: the `disp_ch` keyword overrides the class default
`'x'` only when truthy (a non-empty string). -/
def Polynomial.make (coeffs : List Int) (disp : Option String) : Polynomial :=
  ⟨coeffs, match disp with
           | some d => if d = "" then "x" else d
           | none => "x"⟩

/-- One step of `new_coeffs[pow] += coeff` (the index is always in range when
the source runs it). -/
def bumpAt (acc : List Int) (pow : Nat) (v : Int) : List Int :=
  acc.set pow (acc.getD pow 0 + v)

/-- `Polynomial.__add__`: a zero list of the common length, then the two
`new_coeffs[pow] += coeff` loops, then the bare constructor call. -/
def Polynomial.add (a b : Polynomial) : Polynomial :=
  Polynomial.make
    (b.coeffs.enum.foldl (fun acc pc => bumpAt acc pc.1 pc.2)
      (a.coeffs.enum.foldl (fun acc pc => bumpAt acc pc.1 pc.2)
        (List.replicate (max a.coeffs.length b.coeffs.length) 0)))
    none

/-- `Polynomial.__sub__`: as `__add__` but the second loop subtracts. -/
def Polynomial.sub (a b : Polynomial) : Polynomial :=
  Polynomial.make
    (b.coeffs.enum.foldl (fun acc pc => bumpAt acc pc.1 (-pc.2))
      (a.coeffs.enum.foldl (fun acc pc => bumpAt acc pc.1 pc.2)
        (List.replicate (max a.coeffs.length b.coeffs.length) 0)))
    none

/-- `Polynomial.__mul__`: the convolution double loop. -/
def Polynomial.mul (a b : Polynomial) : Polynomial :=
  Polynomial.make
    (a.coeffs.enum.foldl (fun acc ic =>
        b.coeffs.enum.foldl (fun acc2 jc => bumpAt acc2 (ic.1 + jc.1) (ic.2 * jc.2)) acc)
      (List.replicate (a.coeffs.length + b.coeffs.length - 1) 0))
    none

/-- `Polynomial.derivative`. -/
def Polynomial.derivative (a : Polynomial) : Polynomial :=
  if a.coeffs.length = 0 ∨ a.coeffs.length = 1 then
    Polynomial.make [0] none
  else
    Polynomial.make ((a.coeffs.enum.map (fun pc => (pc.1 : Int) * pc.2)).drop 1) none

/-- One rendered term of `__str__`: empty coefficient part exactly when the
coefficient is `1`, power part empty / bare symbol / `symbol^pow`. -/
def termStr (disp : String) (pow : Nat) (coeff : Int) : String :=
  (if coeff = 1 then "" else intStr coeff) ++
  (if pow = 0 then "" else if pow = 1 then disp else disp ++ "^" ++ natStr pow)

/-- `Polynomial.__str__`: skip zero coefficients, render each remaining term,
join with `" + "`, then textually replace `"+ -"` by `"- "`. -/
def Polynomial.toStr (p : Polynomial) : String :=
  ⟨replacePlusMinus (joinPlus ((p.coeffs.enum.filter (fun pc => pc.2 != 0)).map
    (fun pc => termStr p.disp_ch pc.1 pc.2))).data⟩

/-- Token types of `_TokenType`. -/
inductive TokType where
  | INTEGER | OP_PLUS | OP_MINUS | OP_TIMES | OP_EXPONENT | VARIABLE | EOF
deriving DecidableEq, Repr

/-- `_Token`: the EOF token carries no value (`None`). -/
structure Token where
  type : TokType
  value : Option String
deriving DecidableEq, Repr

/-- `Token.value` the way the parser reads it (always set on the tokens it is
read from). -/
def tokVal (t : Token) : String := t.value.getD ""

/-- Every way the Python code can fail.  The first four are `raise ParseError`
sites (constructor arguments are the data interpolated into the message); the
last four are unhandled runtime exceptions. -/
inductive PyErr where
  /-- lexer `get_next_token`: unexpected character at a position -/
  | lexUnexpectedChar (pos : Nat) (c : Char)
  /-- `_Parser.eat`: expected token type, found token type, `lexer.pos` -/
  | expectedToken (expected found : TokType) (pos : Nat)
  /-- `from_string`: two terms with the same exponent -/
  | dupExponent (e : Nat)
  /-- `from_string`: two distinct variable names (second may be `None`) -/
  | mixedVariable (first : String) (second : Option String)
  /-- the bare `assert` at the top of `parse_node` -/
  | assertionError
  /-- `parse_addop`'s `return ret` with `ret` never assigned -/
  | unboundLocalError
  /-- `None.isdigit()` after `skip_whitespace` ran off the end of the text -/
  | attributeError
  /-- `max(normalized_nodes, ...)` on an empty list -/
  | valueError
  /-- not a Python behaviour: `parseLoop` ran out of fuel.  Unreachable for
  the fuel `parseTermList` supplies, since every loop iteration consumes at
  least one character of the text. -/
  | fuelOut
deriving DecidableEq, Repr

/-- `_Lexer.get_next_token`.  The lexer's only persistent state is `pos`
(`current_char` is recomputed from it each call), so it is a pure function of
the text and the cursor, returning the token and the new cursor. -/
def getNextToken (text : List Char) (pos : Nat) : Except PyErr (Token × Nat) :=
  match text[pos]? with
  | none => .ok (⟨.EOF, none⟩, pos)
  | some c =>
    let pos1 := if c.isWhitespace
      then pos + ((text.drop pos).takeWhile Char.isWhitespace).length
      else pos
    match text[pos1]? with
    | none => .error .attributeError
    | some c1 =>
      if c1.isDigit then
        let run := (text.drop pos1).takeWhile Char.isDigit
        .ok (⟨.INTEGER, some ⟨run⟩⟩, pos1 + run.length)
      else if c1.isAlpha then
        let run := (text.drop pos1).takeWhile Char.isAlpha
        .ok (⟨.VARIABLE, some ⟨run⟩⟩, pos1 + run.length)
      else if c1 = '+' then .ok (⟨.OP_PLUS, some "+"⟩, pos1 + 1)
      else if c1 = '-' then .ok (⟨.OP_MINUS, some "-"⟩, pos1 + 1)
      else if c1 = '*' then .ok (⟨.OP_TIMES, some "*"⟩, pos1 + 1)
      else if c1 = '^' then .ok (⟨.OP_EXPONENT, some "^"⟩, pos1 + 1)
      else .error (.lexUnexpectedChar pos1 c1)

/-- `_Node`: one parsed term.  Exponents come from `int()` of digit literals,
hence are natural numbers. -/
structure Node where
  coefficient : Int
  var_name : Option String
  exponent : Nat
deriving DecidableEq, Repr

/-- An entry of the list `parse` returns: a `_Node` or an addop string. -/
inductive Item where
  | node (n : Node)
  | addop (c : Char)
deriving DecidableEq, Repr

/-- Parser state: the text, the lexer cursor, and `current_token`. -/
structure PSt where
  text : List Char
  pos : Nat
  cur : Token
deriving DecidableEq, Repr

/-- `_Parser.advance`. -/
def advance (st : PSt) : Except PyErr PSt :=
  match getNextToken st.text st.pos with
  | .error e => .error e
  | .ok (t, p) => .ok ⟨st.text, p, t⟩

/-- `_Parser.parse_node`, including the leading `assert`, the optional `*`
consumption, the `'var_name' not in locals()` sentinel, and the exponent
branch that runs regardless of whether a variable name was established. -/
def parse_node (st : PSt) : Except PyErr (Node × PSt) :=
  if st.cur.type ≠ .INTEGER ∧ st.cur.type ≠ .VARIABLE then .error .assertionError
  else
    let coefficient : Int := if st.cur.type = .INTEGER
      then (digitsToNat (tokVal st.cur).data : Int) else 1
    let var0 : Option String := if st.cur.type = .VARIABLE
      then some (tokVal st.cur) else none
    match advance st with
    | .error e => .error e
    | .ok st1 =>
      match (if st1.cur.type = .OP_TIMES then advance st1 else .ok st1) with
      | .error e => .error e
      | .ok st2 =>
        let afterVar : Except PyErr (Option String × PSt) :=
          if st2.cur.type = .VARIABLE then
            match advance st2 with
            | .error e => .error e
            | .ok st3 => .ok (some (tokVal st2.cur), st3)
          else .ok (var0, st2)
        match afterVar with
        | .error e => .error e
        | .ok (var1, st4) =>
          if st4.cur.type = .OP_EXPONENT then
            match advance st4 with
            | .error e => .error e
            | .ok st5 =>
              if st5.cur.type ≠ .INTEGER then
                .error (.expectedToken .INTEGER st5.cur.type st5.pos)
              else
                match advance st5 with
                | .error e => .error e
                | .ok st6 => .ok (⟨coefficient, var1, digitsToNat (tokVal st5.cur).data⟩, st6)
          else
            .ok (⟨coefficient, var1, if var1 = none then 0 else 1⟩, st4)

/-- `_Parser.parse_addop`: the addop character, `None` at EOF; on any other
token type `ret` is never assigned and `return ret` raises
`UnboundLocalError` — but only after `self.advance()` has run (so an error in
`advance` surfaces first). -/
def parse_addop (st : PSt) : Except PyErr (Option Char × PSt) :=
  let retOpt : Option (Option Char) :=
    match st.cur.type with
    | .OP_PLUS => some (some '+')
    | .OP_MINUS => some (some '-')
    | .EOF => some none
    | _ => none
  match advance st with
  | .error e => .error e
  | .ok st1 =>
    match retOpt with
    | some r => .ok (r, st1)
    | none => .error .unboundLocalError

/-- The loop body of `_Parser.parse`, fuel-based (each iteration consumes at
least one character of text, so `text.length + 1` fuel always suffices). -/
def parseLoop : Nat → PSt → Except PyErr (List Item)
  | 0, _ => .error .fuelOut
  | f + 1, st =>
    if st.cur.type = .EOF then .ok []
    else
      match parse_node st with
      | .error e => .error e
      | .ok (n, st1) =>
        match parse_addop st1 with
        | .error e => .error e
        | .ok (op, st2) =>
          match parseLoop f st2 with
          | .error e => .error e
          | .ok rest =>
            .ok (.node n :: (match op with
                             | some c => .addop c :: rest
                             | none => rest))

/-- `_Parser.__init__` (one `advance`) followed by `parse`. -/
def parseTermList (s : String) : Except PyErr (List Item) :=
  let text := s.data
  match getNextToken text 0 with
  | .error e => .error e
  | .ok (cur0, pos0) => parseLoop (text.length + 1) ⟨text, pos0, cur0⟩

/-- The sign-folding loop of `from_string`: `last_op_minus` is set by each
addop (and, as in the source, not reset by a node). -/
def normalizeSigns (items : List Item) : List Node :=
  go items false
where
  go : List Item → Bool → List Node
    | [], _ => []
    | .node n :: rest, minus =>
      (if minus then { n with coefficient := -1 * n.coefficient } else n) :: go rest minus
    | .addop c :: rest, _ => go rest (c = '-')

/-- Stable insertion (before the first strictly larger exponent), matching the
placement Python's stable `sorted` gives when inserting from the right. -/
def insort (n : Node) : List Node → List Node
  | [] => [n]
  | m :: rest => if n.exponent ≤ m.exponent then n :: m :: rest else m :: insort n rest

/-- `sorted(nodes, key=lambda node: node.exponent)` (Python's sort is stable). -/
def sortNodes : List Node → List Node
  | [] => []
  | n :: rest => insort n (sortNodes rest)

/-- The duplicate-exponent check of `from_string` (`seen_exponents` as a
list used only for membership). -/
def checkDup : List Node → List Nat → Except PyErr Unit
  | [], _ => .ok ()
  | n :: rest, seen =>
    if n.exponent ∈ seen then .error (.dupExponent n.exponent)
    else checkDup rest (n.exponent :: seen)

/-- The variable-name check of `from_string`: while `var_name` is `None` it is
replaced by each node's name (possibly staying `None`); once set, any node
with a different name raises the mixed-variable `ParseError`. -/
def checkVar : List Node → Option String → Except PyErr (Option String)
  | [], v => .ok v
  | n :: rest, none => checkVar rest n.var_name
  | n :: rest, some name =>
    if n.var_name = some name then checkVar rest (some name)
    else .error (.mixedVariable name n.var_name)

/-- `coeffs[exp]` after the double loop of `from_string`: the last node with
this exponent wins (there is at most one once `checkDup` passed). -/
def coeffAt (nodes : List Node) (e : Nat) : Int :=
  nodes.foldl (fun acc n => if n.exponent = e then n.coefficient else acc) 0

/-- `max(nodes, key=lambda node: node.exponent)` on a non-empty list (first
maximal element on ties), then `.exponent`. -/
def maxExponent (n0 : Node) (rest : List Node) : Nat :=
  (rest.foldl (fun m n => if m.exponent < n.exponent then n else m) n0).exponent

/-- The checks and the coefficient build of `from_string`, applied to the
already sign-folded and sorted node list: duplicate and mixed-variable
checks, default variable `'x'`, `max()` (ValueError on an empty list), gap
filling, and the final constructor call. -/
def buildPoly (normalized : List Node) : Except PyErr Polynomial :=
  match checkDup normalized [] with
  | .error e => .error e
  | .ok _ =>
    match checkVar normalized none with
    | .error e => .error e
    | .ok varOpt =>
      match normalized with
      | [] => .error .valueError
      | n0 :: rest =>
        .ok (Polynomial.make
          ((List.range (maxExponent n0 rest + 1)).map (coeffAt normalized))
          (some (varOpt.getD "x")))

/-- The normalization part of `Polynomial.from_string`, applied to the list
`parse` returned: fold signs, sort by exponent, then `buildPoly`. -/
def normalizeAst (ast : List Item) : Except PyErr Polynomial :=
  buildPoly (sortNodes (normalizeSigns ast))

/-- `Polynomial.from_string`. -/
def from_string (s : String) : Except PyErr Polynomial :=
  match parseTermList s with
  | .error e => .error e
  | .ok ast => normalizeAst ast

end PolySrc

-- sanity checks: the embedding reproduces the doctests in the source
example : (PolySrc.Polynomial.mk [7, 14, 23] "x").toStr = "7 + 14x + 23x^2" := by decide
example : (PolySrc.Polynomial.mk [14, 12, 9, 11] "z").toStr = "14 + 12z + 9z^2 + 11z^3" := by
  decide
example : ((PolySrc.Polynomial.mk [3,4,5,9] "x").add (PolySrc.Polynomial.mk [9,12,3] "x")).coeffs
    = [12, 16, 8, 9] := by decide
example : ((PolySrc.Polynomial.mk [3,4,5,9] "x").sub (PolySrc.Polynomial.mk [9,12,3] "x")).coeffs
    = [-6, -8, 2, 9] := by decide
example : ((PolySrc.Polynomial.mk [3,4,5,9] "x").mul (PolySrc.Polynomial.mk [9,12,3] "x")).coeffs
    = [27, 72, 102, 153, 123, 27] := by decide
example : (PolySrc.Polynomial.mk [3,4,5,9] "x").derivative.coeffs = [4, 10, 27] := by decide
example : ((PolySrc.Polynomial.mk [3,4,5,9] "x").sub (PolySrc.Polynomial.mk [9,12,3] "x")).toStr
    = "-6 - 8x + 2x^2 + 9x^3" := by decide

deriving instance DecidableEq for Except

section ConcreteTraces
open PolySrc

-- kernel-checked traces of the parser and printer on the concrete inputs
-- discussed in the claims

-- C7 / doctest
example : from_string "3x^3 - 4x + 5" = .ok ⟨[5, -4, 0, 3], "x"⟩ := by decide
-- C1 traces
example : from_string "" = .error .valueError := by decide
example : from_string "  " = .error .attributeError := by decide
-- C2 traces
example : from_string "x + y" = .error (.dupExponent 1) := by decide
example : from_string "x + y^2" = .error (.mixedVariable "x" (some "y")) := by decide
-- C3 traces
example : from_string "3 +" = .ok ⟨[3], "x"⟩ := by decide
example : from_string "5 -" = .ok ⟨[5], "x"⟩ := by decide
example : from_string "1 + + 2" = .error .assertionError := by decide
example : from_string "3x 4" = .error .unboundLocalError := by decide
example : from_string "x^" = .error (.expectedToken .INTEGER .EOF 2) := by decide
example : from_string "x^+1" = .error (.expectedToken .INTEGER .OP_PLUS 3) := by decide
-- C4 traces
example : from_string "5^2" = .ok ⟨[0, 0, 5], "x"⟩ := by decide
example : from_string "7" = .ok ⟨[7], "x"⟩ := by decide
-- C5 traces
example : from_string "-4x + 5" = .error .assertionError := by decide
example : from_string "-1" = .error .assertionError := by decide
example : from_string "4x - 5" = .ok ⟨[-5, 4], "x"⟩ := by decide
-- C6 traces
example : (Polynomial.make [2, 0] none).toStr = "2" := by decide
example : from_string ((Polynomial.make [2, 0] none).toStr) = .ok ⟨[2], "x"⟩ := by decide
example : from_string ((Polynomial.make [5, -4, 0, 3] none).toStr) = .ok ⟨[5, -4, 0, 3], "x"⟩ := by
  decide
-- misc checks
example : from_string "x*y^2" = .ok ⟨[0, 0, 1], "y"⟩ := by decide
example : from_string "3*x" = .ok ⟨[0, 3], "x"⟩ := by decide

end ConcreteTraces

namespace PolySrc

lemma enum_eq (l : List Int) : l.enum = List.enumFrom 0 l := rfl

lemma make_coeffs (c : List Int) (d : Option String) : (Polynomial.make c d).coeffs = c := rfl

lemma getD_set (l : List Int) (j : Nat) (v : Int) (hj : j < l.length) (i : Nat) :
    (l.set j v).getD i 0 = if i = j then v else l.getD i 0 := by
  rw [List.getD_eq_getElem?_getD, List.getD_eq_getElem?_getD, List.getElem?_set]
  by_cases h : j = i
  · subst h
    simp [hj]
  · have h2 : ¬ i = j := fun hh => h hh.symm
    rw [if_neg h, if_neg h2]

lemma length_addFold (l : List Int) : ∀ (k : Nat) (init : List Int),
    ((List.enumFrom k l).foldl (fun acc pc => bumpAt acc pc.1 pc.2) init).length
      = init.length := by
  induction l with
  | nil => intro k init; rfl
  | cons a l ih =>
    intro k init
    rw [List.enumFrom_cons, List.foldl_cons, ih]
    simp [bumpAt]

lemma getD_addFold (l : List Int) : ∀ (k : Nat) (init : List Int),
    k + l.length ≤ init.length → ∀ i,
    ((List.enumFrom k l).foldl (fun acc pc => bumpAt acc pc.1 pc.2) init).getD i 0
      = init.getD i 0 + (if k ≤ i ∧ i < k + l.length then l.getD (i - k) 0 else 0) := by
  induction l with
  | nil => intro k init h i; simp
  | cons a l ih =>
    intro k init h i
    rw [List.enumFrom_cons, List.foldl_cons]
    have hcons : (a :: l).length = l.length + 1 := rfl
    have hk : k < init.length := by rw [hcons] at h; omega
    have hlen : k + 1 + l.length ≤ (bumpAt init k a).length := by
      simp only [bumpAt, List.length_set]
      rw [hcons] at h; omega
    rw [ih (k + 1) _ hlen i]
    show (init.set k (init.getD k 0 + a)).getD i 0 + _ = _
    rw [getD_set init k _ hk i]
    by_cases hik : i = k
    · subst hik
      have h1 : ¬(i + 1 ≤ i ∧ i < i + 1 + l.length) := by omega
      have h2 : i ≤ i ∧ i < i + (a :: l).length := by rw [hcons]; omega
      rw [if_pos rfl, if_neg h1, if_pos h2, Nat.sub_self, List.getD_cons_zero]
      ring
    · simp only [if_neg hik]
      by_cases h3 : k + 1 ≤ i ∧ i < k + 1 + l.length
      · have h4 : k ≤ i ∧ i < k + (a :: l).length := by rw [hcons]; omega
        simp only [if_pos h3, if_pos h4]
        have h5 : i - k = (i - (k + 1)) + 1 := by omega
        rw [h5, List.getD_cons_succ]
      · have h4 : ¬(k ≤ i ∧ i < k + (a :: l).length) := by rw [hcons]; omega
        simp only [if_neg h3, if_neg h4]

lemma getD_replicate0 (n i : Nat) : (List.replicate n (0 : Int)).getD i 0 = 0 := by
  by_cases h : i < n
  · rw [List.getD_eq_getElem _ _ (by simpa using h)]
    exact List.getElem_replicate _ _
  · exact List.getD_eq_default _ _ (by simpa using h)

lemma pad_eq (l : List Int) (i : Nat) :
    (if 0 ≤ i ∧ i < 0 + l.length then l.getD (i - 0) 0 else 0) = l.getD i 0 := by
  by_cases h : i < l.length
  · simp [h]
  · rw [if_neg (by omega), List.getD_eq_default _ _ (by omega)]

lemma add_coeffs (a b : Polynomial) :
    (a.add b).coeffs = (List.enumFrom 0 b.coeffs).foldl (fun acc pc => bumpAt acc pc.1 pc.2)
      ((List.enumFrom 0 a.coeffs).foldl (fun acc pc => bumpAt acc pc.1 pc.2)
        (List.replicate (max a.coeffs.length b.coeffs.length) 0)) := rfl

lemma add_coeffs_length (a b : Polynomial) :
    (a.add b).coeffs.length = max a.coeffs.length b.coeffs.length := by
  rw [add_coeffs, length_addFold, length_addFold, List.length_replicate]

lemma add_coeffs_getD (a b : Polynomial) (i : Nat) :
    (a.add b).coeffs.getD i 0 = a.coeffs.getD i 0 + b.coeffs.getD i 0 := by
  rw [add_coeffs]
  have h1 : 0 + a.coeffs.length
      ≤ (List.replicate (max a.coeffs.length b.coeffs.length) (0 : Int)).length := by
    rw [List.length_replicate]; omega
  have h2 : 0 + b.coeffs.length
      ≤ ((List.enumFrom 0 a.coeffs).foldl (fun acc pc => bumpAt acc pc.1 pc.2)
          (List.replicate (max a.coeffs.length b.coeffs.length) (0 : Int))).length := by
    rw [length_addFold, List.length_replicate]; omega
  rw [getD_addFold _ _ _ h2, getD_addFold _ _ _ h1, getD_replicate0, pad_eq, pad_eq]
  ring

/-- C9: addition produces the padded pointwise sum: the result length is the
maximum of the operand lengths, each entry is the sum of the operands' entries
(missing entries read as 0), the coefficient sequences of `a + b` and `b + a`
coincide, and adding an all-zero polynomial leaves every coefficient of `a`
unchanged (after padding to the common length). -/
theorem C9_addition_spec : ∀ a b : Polynomial,
    (a.add b).coeffs.length = max a.coeffs.length b.coeffs.length
    ∧ (∀ i, (a.add b).coeffs.getD i 0 = a.coeffs.getD i 0 + b.coeffs.getD i 0)
    ∧ (a.add b).coeffs = (b.add a).coeffs
    ∧ ∀ z : Polynomial, (∀ x ∈ z.coeffs, x = 0) →
        (∀ i, (a.add z).coeffs.getD i 0 = a.coeffs.getD i 0)
        ∧ (a.add z).coeffs.length = max a.coeffs.length z.coeffs.length := by
  intro a b
  refine ⟨add_coeffs_length a b, add_coeffs_getD a b, ?_, ?_⟩
  · apply List.ext_getElem
    · rw [add_coeffs_length, add_coeffs_length, Nat.max_comm]
    · intro n h1 h2
      rw [← List.getD_eq_getElem _ 0 h1, ← List.getD_eq_getElem _ 0 h2,
        add_coeffs_getD, add_coeffs_getD]
      ring
  · intro z hz
    have hz0 : ∀ i, z.coeffs.getD i 0 = 0 := by
      intro i
      by_cases h : i < z.coeffs.length
      · rw [List.getD_eq_getElem _ _ h]
        exact hz _ (List.getElem_mem h)
      · exact List.getD_eq_default _ _ (by omega)
    exact ⟨fun i => by rw [add_coeffs_getD, hz0, Int.add_zero],
      add_coeffs_length a z⟩

/-- C9 witness at a concrete instance. -/
theorem C9_addition_spec_witness :
    (∀ x ∈ (Polynomial.mk [0, 0] "x").coeffs, x = 0)
    ∧ (∀ i, ((Polynomial.mk [3, 4, 5, 9] "x").add (Polynomial.mk [0, 0] "x")).coeffs.getD i 0
        = (Polynomial.mk [3, 4, 5, 9] "x").coeffs.getD i 0) := by
  have h : ∀ x ∈ (Polynomial.mk [0, 0] "x").coeffs, x = 0 := by decide
  exact ⟨h, ((C9_addition_spec (Polynomial.mk [3, 4, 5, 9] "x")
    (Polynomial.mk [3, 4, 5, 9] "x")).2.2.2 (Polynomial.mk [0, 0] "x") h).1⟩

/-- C8: the derivative has entries `result[i] = (i+1) * a[i+1]` (one entry for
each `i` below `len(a) - 1`), and is the single-entry zero polynomial `[0]`
whenever the coefficient list has length at most 1. -/
theorem C8_derivative_spec : ∀ a : Polynomial,
    a.derivative.coeffs = if a.coeffs.length ≤ 1 then [0]
      else (List.range (a.coeffs.length - 1)).map
        (fun i : Nat => ((i + 1 : Nat) : Int) * a.coeffs.getD (i + 1) 0) := by
  intro a
  unfold Polynomial.derivative
  by_cases h : a.coeffs.length = 0 ∨ a.coeffs.length = 1
  · rw [if_pos h, if_pos (by omega)]
    rfl
  · rw [if_neg h, if_neg (by omega), make_coeffs]
    apply List.ext_getElem
    · rw [List.length_drop, List.length_map, List.enum_length, List.length_map,
        List.length_range]
    · intro n h1 h2
      have hn : 1 + n < a.coeffs.length := by
        rw [List.length_drop, List.length_map, List.enum_length] at h1; omega
      rw [List.getElem_drop, List.getElem_map, List.getElem_map, List.getElem_range,
        List.getElem_enum]
      rw [List.getD_eq_getElem _ 0 (by omega : n + 1 < a.coeffs.length)]
      have he : (1 : Nat) + n = n + 1 := by omega
      simp only [he]

/-- C10 (implicit): every result of `add`, `sub`, `mul`, `derivative` carries
the default display symbol `'x'`, whatever the operands' display symbols were
(the constructor is always called without `disp_ch`). -/
theorem C10_result_disp_default : ∀ a b : Polynomial,
    (a.add b).disp_ch = "x" ∧ (a.sub b).disp_ch = "x" ∧ (a.mul b).disp_ch = "x"
    ∧ a.derivative.disp_ch = "x" := by
  intro a b
  refine ⟨rfl, rfl, rfl, ?_⟩
  unfold Polynomial.derivative
  split <;> rfl

/-- C1: the spec requires `parse_polynomial` to return the zero polynomial
`[0]` on empty or whitespace-only input; the code instead crashes — `""`
reaches `max()` on an empty list (ValueError) and `"  "` reaches
`None.isdigit()` after the whitespace skip (AttributeError). -/
theorem C1_empty_input_crashes :
    from_string "" = .error .valueError ∧ from_string "  " = .error .attributeError := by
  decide

/-- C3 counterexample: a trailing addop at end of input is silently accepted
rather than raising ParseError: `"3 +"` parses to the polynomial `[3]`. -/
theorem C3_counterexample : from_string "3 +" = .ok ⟨[3], "x"⟩ := by decide

/-- C3 as amended: only a `^` not followed by an Integer raises the
structural ParseError (with expected/found token types and the offending
position); a token other than Integer/Variable where a term must begin (two
operators in a row) raises AssertionError, a token other than `+`/`-`/EOF
after a complete term raises UnboundLocalError, and a trailing addop at end
of input is silently accepted. -/
theorem C3_amended :
    from_string "1 + + 2" = .error .assertionError
    ∧ from_string "3x 4" = .error .unboundLocalError
    ∧ from_string "5 -" = .ok ⟨[5], "x"⟩
    ∧ from_string "x^" = .error (.expectedToken .INTEGER .EOF 2)
    ∧ from_string "x^+1" = .error (.expectedToken .INTEGER .OP_PLUS 3) := by
  decide

/-- C4 counterexample: `"5^2"` does not fail — the exponent branch of
`parse_node` runs whether or not a variable name was established, so the
input parses to the coefficient sequence `[0, 0, 5]`. -/
theorem C4_counterexample : from_string "5^2" = .ok ⟨[0, 0, 5], "x"⟩ := by decide

/-- C4 as amended: a bare integer constant with no trailing `^` gets exponent
0 (`"7"` parses to `[7]`), but a trailing `^Integer` after a constant is
accepted and sets the exponent rather than being a syntax error (`"7^2"`
parses to `[0, 0, 7]`). -/
theorem C4_amended :
    from_string "7" = .ok ⟨[7], "x"⟩ ∧ from_string "7^2" = .ok ⟨[0, 0, 7], "x"⟩ := by
  decide

/-- C5 counterexample: an input whose first term carries a leading unary
minus is not parsed successfully: `"-4x + 5"` hits the `assert` at the top of
`parse_node` (AssertionError), since a term must begin with an Integer or
Variable token. -/
theorem C5_counterexample : from_string "-4x + 5" = .error .assertionError := by decide

/-- C5 as amended: there is no unary-minus handling at the parse stage — a
leading `-` fails with AssertionError even on a single constant; all signs
are folded in during normalization from the preceding addop (`"4x - 5"`
parses to `[-5, 4]`). -/
theorem C5_amended :
    from_string "-1" = .error .assertionError
    ∧ from_string "4x - 5" = .ok ⟨[-5, 4], "x"⟩ := by
  decide

/-- C7: the concrete scenario `"3x^3 - 4x + 5"` parses to ascending
coefficients `[5, -4, 0, 3]` (display symbol `x`), and rendering that
polynomial yields exactly `"5 - 4x + 3x^3"`. -/
theorem C7_concrete_roundtrip :
    from_string "3x^3 - 4x + 5" = .ok ⟨[5, -4, 0, 3], "x"⟩
    ∧ (Polynomial.mk [5, -4, 0, 3] "x").toStr = "5 - 4x + 3x^3" := by
  decide

/-- C2 counterexample: `parse_polynomial("x + y")` does fail, but not with
the mixed-variable error naming both names: both terms have exponent 1, and
the duplicate-exponent check runs first, so the error raised is the
duplicate-exponent ParseError for exponent 1. -/
theorem C2_counterexample : from_string "x + y" = .error (.dupExponent 1) := by decide

end PolySrc

namespace PolySrc

/-- The parsed terms mention two distinct (non-`None`) variable names. -/
def TwoVars (nodes : List Node) : Prop :=
  ∃ a b : String, a ≠ b ∧ (some a) ∈ nodes.map Node.var_name
    ∧ (some b) ∈ nodes.map Node.var_name

/-- The error is one of the two normalization-stage `ParseError`s. -/
def isDupOrMixed : PyErr → Prop
  | .dupExponent _ => True
  | .mixedVariable _ _ => True
  | _ => False

lemma checkDup_error_shape : ∀ (nodes : List Node) (seen : List Nat) (e : PyErr),
    checkDup nodes seen = .error e → ∃ k, e = .dupExponent k := by
  intro nodes
  induction nodes with
  | nil => intro seen e h; simp [checkDup] at h
  | cons n rest ih =>
    intro seen e h
    by_cases hmem : n.exponent ∈ seen
    · rw [checkDup, if_pos hmem] at h
      refine ⟨n.exponent, ?_⟩
      cases h
      rfl
    · rw [checkDup, if_neg hmem] at h
      exact ih _ _ h

lemma checkVar_mem_ne : ∀ (nodes : List Node) (name b : String),
    some b ∈ nodes.map Node.var_name → b ≠ name →
    ∃ x y, checkVar nodes (some name) = .error (.mixedVariable x y) := by
  intro nodes
  induction nodes with
  | nil => intro name b hb hne; simp at hb
  | cons n rest ih =>
    intro name b hb hne
    rw [List.map_cons] at hb
    by_cases h : n.var_name = some name
    · have hstep : checkVar (n :: rest) (some name) = checkVar rest (some name) := by
        rw [checkVar, if_pos h]
      rw [hstep]
      rcases List.mem_cons.mp hb with h1 | h2
      · exact absurd (by rw [h] at h1; exact (Option.some_inj.mp h1)) hne
      · exact ih name b h2 hne
    · exact ⟨name, n.var_name, by rw [checkVar, if_neg h]⟩

lemma checkVar_twoVars : ∀ (nodes : List Node) (v : Option String), TwoVars nodes →
    ∃ x y, checkVar nodes v = .error (.mixedVariable x y) := by
  intro nodes
  induction nodes with
  | nil =>
    intro v htwo
    obtain ⟨a, b, hab, ha, hb⟩ := htwo
    simp at ha
  | cons n rest ih =>
    intro v htwo
    obtain ⟨a, b, hab, ha, hb⟩ := htwo
    match v with
    | some name =>
      by_cases hac : a = name
      · exact checkVar_mem_ne _ name b hb (fun h => hab (by rw [hac, h]))
      · exact checkVar_mem_ne _ name a ha hac
    | none =>
      have hstep : checkVar (n :: rest) none = checkVar rest n.var_name := by
        rw [checkVar]
      rw [hstep]
      rw [List.map_cons] at ha hb
      rcases List.mem_cons.mp ha with ha1 | ha2
      · rcases List.mem_cons.mp hb with hb1 | hb2
        · exact absurd (Option.some_inj.mp (ha1.trans hb1.symm)) hab
        · rw [← ha1]
          exact checkVar_mem_ne rest a b hb2 (fun h => hab h.symm)
      · rcases List.mem_cons.mp hb with hb1 | hb2
        · rw [← hb1]
          exact checkVar_mem_ne rest b a ha2 hab
        · exact ih n.var_name ⟨a, b, hab, ha2, hb2⟩

/-- C2 as amended: `"x + y"` fails, but with the duplicate-exponent
ParseError (both terms have exponent 1; that check runs first); the
mixed-variable ParseError naming both names is raised when the duplicate
check passes (e.g. `"x + y^2"`); and in general, whenever the parsed terms
use more than one distinct non-none variable name, `from_string` fails with
one of those two ParseErrors. -/
theorem C2_amended :
    from_string "x + y" = .error (.dupExponent 1)
    ∧ from_string "x + y^2" = .error (.mixedVariable "x" (some "y"))
    ∧ ∀ (s : String) (ast : List Item), parseTermList s = .ok ast →
        TwoVars (sortNodes (normalizeSigns ast)) →
        ∃ e, from_string s = .error e ∧ isDupOrMixed e := by
  refine ⟨by decide, by decide, ?_⟩
  intro s ast hpt htwo
  have hfs : from_string s = normalizeAst ast := by rw [from_string, hpt]
  cases hcd : checkDup (sortNodes (normalizeSigns ast)) [] with
  | error e =>
    obtain ⟨k, hk⟩ := checkDup_error_shape _ _ _ hcd
    refine ⟨e, ?_, by rw [hk]; trivial⟩
    rw [hfs]
    unfold normalizeAst buildPoly
    rw [hcd]
  | ok u =>
    obtain ⟨x, y, hcv⟩ := checkVar_twoVars (sortNodes (normalizeSigns ast)) none htwo
    refine ⟨.mixedVariable x y, ?_, trivial⟩
    rw [hfs]
    unfold normalizeAst buildPoly
    rw [hcd, hcv]

/-- C2 witness for the general clause at a concrete input. -/
theorem C2_amended_witness :
    ∃ e, from_string "z + w^2" = .error e ∧ isDupOrMixed e :=
  C2_amended.2.2 "z + w^2"
    [.node ⟨1, some "z", 1⟩, .addop '+', .node ⟨1, some "w", 2⟩]
    (by decide) ⟨"z", "w", by decide, by decide, by decide⟩

end PolySrc

namespace PolySrc

lemma natDigsF_stable : ∀ (f : Nat), ∀ n, n < f → ∀ f', n < f' → natDigsF f n = natDigsF f' n := by
  intro f
  induction f with
  | zero => intro n h; omega
  | succ f ih =>
    intro n hn f' hf'
    cases f' with
    | zero => omega
    | succ f' =>
      show (if n < 10 then _ else _) = (if n < 10 then _ else _)
      by_cases h10 : n < 10
      · rw [if_pos h10, if_pos h10]
      · rw [if_neg h10, if_neg h10]
        have hd : n / 10 < n := Nat.div_lt_self (by omega) (by omega)
        rw [ih (n / 10) (by omega) f' (by omega)]

lemma natDigs_unfold (n : Nat) :
    natDigs n = if n < 10 then [Nat.digitChar n]
      else natDigs (n / 10) ++ [Nat.digitChar (n % 10)] := by
  show natDigsF (n + 1) n = _
  rw [natDigsF]
  by_cases h10 : n < 10
  · rw [if_pos h10, if_pos h10]
  · rw [if_neg h10, if_neg h10]
    have hd : n / 10 < n := Nat.div_lt_self (by omega) (by omega)
    rw [natDigsF_stable n (n / 10) (by omega) (n / 10 + 1) (by omega)]
    rfl

lemma digitChar_toNat {d : Nat} (h : d < 10) : (Nat.digitChar d).toNat = 48 + d := by
  interval_cases d <;> rfl

lemma digitChar_isDigit {d : Nat} (h : d < 10) : (Nat.digitChar d).isDigit = true := by
  interval_cases d <;> rfl

lemma natDigs_ne_nil (n : Nat) : natDigs n ≠ [] := by
  rw [natDigs_unfold]
  by_cases h10 : n < 10
  · rw [if_pos h10]; simp
  · rw [if_neg h10]; simp

lemma natDigs_all_digit (n : Nat) : ∀ c ∈ natDigs n, c.isDigit = true := by
  induction n using Nat.strong_induction_on with
  | _ n ih =>
    rw [natDigs_unfold]
    by_cases h10 : n < 10
    · rw [if_pos h10]
      intro c hc
      rw [List.mem_singleton] at hc
      rw [hc]
      exact digitChar_isDigit h10
    · rw [if_neg h10]
      intro c hc
      rcases List.mem_append.mp hc with h1 | h2
      · exact ih (n / 10) (Nat.div_lt_self (by omega) (by omega)) c h1
      · rw [List.mem_singleton] at h2
        rw [h2]
        exact digitChar_isDigit (Nat.mod_lt _ (by omega))

lemma foldl_digits_acc : ∀ (l : List Char) (a : Nat),
    l.foldl (fun a c => 10 * a + (c.toNat - 48)) a
      = a * 10 ^ l.length + l.foldl (fun a c => 10 * a + (c.toNat - 48)) 0 := by
  intro l
  induction l with
  | nil => intro a; simp
  | cons c l ih =>
    intro a
    rw [List.foldl_cons, List.foldl_cons, ih (10 * a + (c.toNat - 48)),
      ih (10 * 0 + (c.toNat - 48))]
    rw [List.length_cons]
    ring

lemma digitsToNat_natDigs : ∀ n, digitsToNat (natDigs n) = n := by
  intro n
  induction n using Nat.strong_induction_on with
  | _ n ih =>
    rw [natDigs_unfold]
    by_cases h10 : n < 10
    · rw [if_pos h10]
      show 10 * 0 + ((Nat.digitChar n).toNat - 48) = n
      rw [digitChar_toNat h10]
      omega
    · rw [if_neg h10]
      show List.foldl _ 0 (natDigs (n / 10) ++ [Nat.digitChar (n % 10)]) = n
      rw [List.foldl_append]
      show 10 * (digitsToNat (natDigs (n / 10))) + ((Nat.digitChar (n % 10)).toNat - 48) = n
      rw [ih (n / 10) (Nat.div_lt_self (by omega) (by omega)),
        digitChar_toNat (Nat.mod_lt _ (by omega))]
      omega

lemma isDigit_class {c : Char} (h : c.isDigit = true) :
    c.isAlpha = false ∧ c.isWhitespace = false ∧ c ≠ '+' ∧ c ≠ '-' ∧ c ≠ '*' ∧ c ≠ '^' := by
  refine ⟨?_, ?_, ?_, ?_, ?_, ?_⟩
  · simp [Char.isDigit, UInt32.le_def, BitVec.le_def] at h
    simp [Char.isAlpha, Char.isUpper, Char.isLower, UInt32.le_def, BitVec.le_def]
    omega
  · cases hw : c.isWhitespace
    · rfl
    · exfalso
      simp [Char.isWhitespace] at hw
      rcases hw with ((h1 | h1) | h1) | h1 <;> (subst h1; simp at h)
  all_goals (intro hh; rw [hh] at h; simp at h)

end PolySrc

namespace PolySrc

/-- The variable name a rendered term with this power establishes on parse. -/
def varOf (pow : Nat) : Option String := if pow = 0 then none else some "x"

/-- The node `parse_node` produces for a rendered term (coefficient magnitude;
the sign lives in the preceding addop). -/
def nodeOf (t : Nat × Int) : Node := ⟨(t.2.natAbs : Int), varOf t.1, t.1⟩

/-- The characters of the power part after the variable symbol (power ≥ 1). -/
def expTail (pow : Nat) : List Char := if pow = 1 then [] else '^' :: natDigs pow

/-- The characters of a rendered term body (sign excluded): digits for a
constant; optional digits (absent for coefficient 1), `x`, and the power part
otherwise. -/
def bodyChars (t : Nat × Int) : List Char :=
  if t.1 = 0 then natDigs t.2.natAbs
  else (if t.2 = 1 then [] else natDigs t.2.natAbs) ++ 'x' :: expTail t.1

/-- Characters of the first token of a body. -/
def fstTokChars (t : Nat × Int) : List Char :=
  if t.1 ≠ 0 ∧ t.2 = 1 then ['x'] else natDigs t.2.natAbs

/-- The first token of a body. -/
def fstTok (t : Nat × Int) : Token :=
  if t.1 ≠ 0 ∧ t.2 = 1 then ⟨.VARIABLE, some "x"⟩
  else ⟨.INTEGER, some ⟨natDigs t.2.natAbs⟩⟩

/-- The body characters after the first token. -/
def bodyTail (t : Nat × Int) : List Char :=
  if t.1 = 0 then [] else if t.2 = 1 then expTail t.1 else 'x' :: expTail t.1

/-- The separator before a later term, after `"+ -"` → `"- "` replacement. -/
def sepChars (coeff : Int) : List Char :=
  if coeff < 0 then [' ', '-', ' '] else [' ', '+', ' ']

/-- The addop token the separator lexes to. -/
def sepTok (coeff : Int) : Token :=
  if coeff < 0 then ⟨.OP_MINUS, some "-"⟩ else ⟨.OP_PLUS, some "+"⟩

/-- The addop character `parse_addop` returns for the separator. -/
def signAdd (coeff : Int) : Char := if coeff < 0 then '-' else '+'

/-- Characters of all terms after the first: separator then body, repeated. -/
def tailChars : List (Nat × Int) → List Char
  | [] => []
  | t :: ts => sepChars t.2 ++ bodyChars t ++ tailChars ts

/-- Items `parse` produces for the terms after the first. -/
def itemsTail : List (Nat × Int) → List Item
  | [] => []
  | u :: ts => .addop (signAdd u.2) :: .node (nodeOf u) :: itemsTail ts

/-- Items `parse` produces for a rendered term list. -/
def itemsOf (t : Nat × Int) (ts : List (Nat × Int)) : List Item :=
  .node (nodeOf t) :: itemsTail ts

/-- The head of this character list (if any) falsifies `p`. -/
def headNot (p : Char → Bool) : List Char → Prop
  | [] => True
  | c :: _ => p c = false

lemma bodyChars_eq (t : Nat × Int) : bodyChars t = fstTokChars t ++ bodyTail t := by
  rw [bodyChars, fstTokChars, bodyTail]
  by_cases h0 : t.1 = 0
  · rw [if_pos h0, if_pos h0, if_neg (by simp [h0]), List.append_nil]
  · rw [if_neg h0, if_neg h0]
    by_cases h1 : t.2 = 1
    · rw [if_pos h1, if_pos ⟨h0, h1⟩, if_pos h1]
      rfl
    · rw [if_neg h1, if_neg (by simp [h1]), if_neg h1]

lemma bodyChars_ne_nil (t : Nat × Int) : bodyChars t ≠ [] := by
  rw [bodyChars]
  by_cases h0 : t.1 = 0
  · rw [if_pos h0]; exact natDigs_ne_nil _
  · rw [if_neg h0]
    by_cases h1 : t.2 = 1 <;> simp [h1]

lemma takeWhile_append_all (p : Char → Bool) : ∀ (l1 l2 : List Char),
    (∀ c ∈ l1, p c = true) → headNot p l2 → (l1 ++ l2).takeWhile p = l1 := by
  intro l1
  induction l1 with
  | nil =>
    intro l2 h1 h2
    cases l2 with
    | nil => rfl
    | cons c cs =>
      show List.takeWhile p (c :: cs) = []
      rw [List.takeWhile_cons, if_neg (by rw [show p c = false from h2]; simp)]
  | cons a l ih =>
    intro l2 h1 h2
    rw [List.cons_append, List.takeWhile_cons,
      if_pos (h1 a (List.mem_cons_self a l)), ih l2 (fun c hc => h1 c (List.mem_cons_of_mem _ hc)) h2]

lemma getElem?_pre (pre rest : List Char) : (pre ++ rest)[pre.length]? = rest.head? := by
  rw [List.getElem?_append_right (le_refl _), Nat.sub_self]
  cases rest <;> simp

lemma getElem?_pre_add (pre rest : List Char) (k : Nat) :
    (pre ++ rest)[pre.length + k]? = rest[k]? := by
  rw [List.getElem?_append_right (by omega)]
  congr 1
  omega

end PolySrc

namespace PolySrc

lemma lex_eof (text : List Char) :
    getNextToken text text.length = .ok (⟨.EOF, none⟩, text.length) := by
  have h0 : text[text.length]? = none := by
    rw [List.getElem?_eq_none_iff]
  simp [getNextToken, h0]

lemma lex_digits (pre rest : List Char) (m : Nat) (h2 : headNot Char.isDigit rest) :
    getNextToken (pre ++ (natDigs m ++ rest)) pre.length
      = .ok (⟨.INTEGER, some ⟨natDigs m⟩⟩, pre.length + (natDigs m).length) := by
  obtain ⟨d, ds, hds⟩ := List.exists_cons_of_ne_nil (natDigs_ne_nil m)
  have hd : d.isDigit = true := natDigs_all_digit m d (by rw [hds]; exact List.mem_cons_self _ _)
  have hcl := isDigit_class hd
  have h0 : (pre ++ (natDigs m ++ rest))[pre.length]? = some d := by
    rw [getElem?_pre, hds]
    rfl
  have htw : (natDigs m ++ rest).takeWhile Char.isDigit = natDigs m :=
    takeWhile_append_all _ _ _ (natDigs_all_digit m) h2
  simp [getNextToken, h0, hcl.2.1, hd, htw]

end PolySrc

namespace PolySrc

lemma lex_var_x (pre rest : List Char) (h2 : headNot Char.isAlpha rest) :
    getNextToken (pre ++ ('x' :: rest)) pre.length
      = .ok (⟨.VARIABLE, some "x"⟩, pre.length + 1) := by
  have h0 : (pre ++ ('x' :: rest))[pre.length]? = some 'x' := by
    rw [getElem?_pre]
    rfl
  have htw : ('x' :: rest).takeWhile Char.isAlpha = ['x'] := by
    have := takeWhile_append_all Char.isAlpha ['x'] rest (by intro c hc; simp at hc; rw [hc]; rfl) h2
    simpa using this
  simp [getNextToken, h0, htw]

lemma lex_caret (pre rest : List Char) :
    getNextToken (pre ++ ('^' :: rest)) pre.length
      = .ok (⟨.OP_EXPONENT, some "^"⟩, pre.length + 1) := by
  have h0 : (pre ++ ('^' :: rest))[pre.length]? = some '^' := by
    rw [getElem?_pre]
    rfl
  simp [getNextToken, h0]

lemma lex_space (pre : List Char) (c : Char) (rest : List Char) (hc : c.isWhitespace = false) :
    getNextToken (pre ++ (' ' :: (c :: rest))) pre.length
      = getNextToken (pre ++ (' ' :: (c :: rest))) (pre.length + 1) := by
  have h0 : (pre ++ (' ' :: (c :: rest)))[pre.length]? = some ' ' := by
    rw [getElem?_pre]
    rfl
  have h1 : (pre ++ (' ' :: (c :: rest)))[pre.length + 1]? = some c := by
    rw [getElem?_pre_add]
    simp
  have htw : ((' ' :: (c :: rest)).takeWhile Char.isWhitespace) = [' '] := by
    rw [List.takeWhile_cons, if_pos (by rfl), List.takeWhile_cons, if_neg (by rw [hc]; simp)]
  simp [getNextToken, h0, h1, htw, hc]

end PolySrc

namespace PolySrc

lemma lex_plus (pre rest : List Char) :
    getNextToken (pre ++ ('+' :: rest)) pre.length
      = .ok (⟨.OP_PLUS, some "+"⟩, pre.length + 1) := by
  have h0 : (pre ++ ('+' :: rest))[pre.length]? = some '+' := by
    rw [getElem?_pre]
    rfl
  simp [getNextToken, h0]

lemma lex_minus (pre rest : List Char) :
    getNextToken (pre ++ ('-' :: rest)) pre.length
      = .ok (⟨.OP_MINUS, some "-"⟩, pre.length + 1) := by
  have h0 : (pre ++ ('-' :: rest))[pre.length]? = some '-' := by
    rw [getElem?_pre]
    rfl
  simp [getNextToken, h0]

lemma lex_sp_plus (pre rest : List Char) :
    getNextToken (pre ++ (' ' :: '+' :: rest)) pre.length
      = .ok (⟨.OP_PLUS, some "+"⟩, pre.length + 2) := by
  rw [lex_space pre '+' rest (by decide)]
  have hasc : pre ++ (' ' :: '+' :: rest) = (pre ++ [' ']) ++ ('+' :: rest) := by simp
  have hlen : (pre ++ [' ']).length = pre.length + 1 := by simp
  rw [hasc, ← hlen, lex_plus (pre ++ [' ']) rest, hlen]

lemma lex_sp_minus (pre rest : List Char) :
    getNextToken (pre ++ (' ' :: '-' :: rest)) pre.length
      = .ok (⟨.OP_MINUS, some "-"⟩, pre.length + 2) := by
  rw [lex_space pre '-' rest (by decide)]
  have hasc : pre ++ (' ' :: '-' :: rest) = (pre ++ [' ']) ++ ('-' :: rest) := by simp
  have hlen : (pre ++ [' ']).length = pre.length + 1 := by simp
  rw [hasc, ← hlen, lex_minus (pre ++ [' ']) rest, hlen]

lemma lex_sp_digits (pre rest : List Char) (m : Nat) (h2 : headNot Char.isDigit rest) :
    getNextToken (pre ++ (' ' :: (natDigs m ++ rest))) pre.length
      = .ok (⟨.INTEGER, some ⟨natDigs m⟩⟩, pre.length + 1 + (natDigs m).length) := by
  obtain ⟨d, ds, hds⟩ := List.exists_cons_of_ne_nil (natDigs_ne_nil m)
  have hd : d.isDigit = true := natDigs_all_digit m d (by rw [hds]; exact List.mem_cons_self _ _)
  have hstep : pre ++ (' ' :: (natDigs m ++ rest)) = pre ++ (' ' :: (d :: (ds ++ rest))) := by
    rw [hds]
    rfl
  rw [hstep, lex_space pre d (ds ++ rest) (isDigit_class hd).2.1, ← hstep]
  have hasc : pre ++ (' ' :: (natDigs m ++ rest)) = (pre ++ [' ']) ++ (natDigs m ++ rest) := by
    simp
  have hlen : (pre ++ [' ']).length = pre.length + 1 := by simp
  rw [hasc, ← hlen, lex_digits (pre ++ [' ']) rest m h2, hlen]

lemma lex_sp_var_x (pre rest : List Char) (h2 : headNot Char.isAlpha rest) :
    getNextToken (pre ++ (' ' :: 'x' :: rest)) pre.length
      = .ok (⟨.VARIABLE, some "x"⟩, pre.length + 2) := by
  rw [lex_space pre 'x' rest (by decide)]
  have hasc : pre ++ (' ' :: 'x' :: rest) = (pre ++ [' ']) ++ ('x' :: rest) := by simp
  have hlen : (pre ++ [' ']).length = pre.length + 1 := by simp
  rw [hasc, ← hlen, lex_var_x (pre ++ [' ']) rest h2, hlen]

end PolySrc

namespace PolySrc

/-- The parser state right after a term body has been consumed and one more
token has been lexed: the separator's addop (two characters on) or EOF. -/
def afterBody (text : List Char) (n : Nat) : List (Nat × Int) → PSt
  | [] => ⟨text, n, ⟨.EOF, none⟩⟩
  | u :: _ => ⟨text, n + 2, sepTok u.2⟩

lemma advance_eq (cur : Token) {text : List Char} {pos : Nat} {t' : Token} {p' : Nat}
    (h : getNextToken text pos = .ok (t', p')) :
    advance ⟨text, pos, cur⟩ = .ok ⟨text, p', t'⟩ := by
  rw [advance, h]

lemma headNot_digit_tail (ts : List (Nat × Int)) : headNot Char.isDigit (tailChars ts) := by
  cases ts with
  | nil => trivial
  | cons u ts' =>
    simp only [tailChars, sepChars]
    by_cases h : u.2 < 0
    · rw [if_pos h]
      exact (by decide : (' ' : Char).isDigit = false)
    · rw [if_neg h]
      exact (by decide : (' ' : Char).isDigit = false)

lemma headNot_alpha_tail (ts : List (Nat × Int)) : headNot Char.isAlpha (tailChars ts) := by
  cases ts with
  | nil => trivial
  | cons u ts' =>
    simp only [tailChars, sepChars]
    by_cases h : u.2 < 0
    · rw [if_pos h]
      exact (by decide : (' ' : Char).isAlpha = false)
    · rw [if_neg h]
      exact (by decide : (' ' : Char).isAlpha = false)

lemma headNot_alpha_expTail (pow : Nat) (ts : List (Nat × Int)) :
    headNot Char.isAlpha (expTail pow ++ tailChars ts) := by
  rw [expTail]
  by_cases h : pow = 1
  · rw [if_pos h]
    exact headNot_alpha_tail ts
  · rw [if_neg h]
    show ('^' : Char).isAlpha = false
    decide

lemma lex_after_body (pre2 : List Char) (ts : List (Nat × Int)) :
    getNextToken (pre2 ++ tailChars ts) pre2.length
      = .ok ((afterBody (pre2 ++ tailChars ts) pre2.length ts).cur,
             (afterBody (pre2 ++ tailChars ts) pre2.length ts).pos) := by
  cases ts with
  | nil =>
    show getNextToken (pre2 ++ []) pre2.length = .ok (⟨.EOF, none⟩, pre2.length)
    have h : pre2 ++ ([] : List Char) = pre2 := List.append_nil pre2
    rw [h]
    have h2 := lex_eof pre2
    exact h2
  | cons u ts' =>
    simp only [tailChars, afterBody, sepChars, sepTok]
    by_cases h : u.2 < 0
    · rw [if_pos h, if_pos h]
      have := lex_sp_minus pre2 (' ' :: (bodyChars u ++ tailChars ts'))
      simpa using this
    · rw [if_neg h, if_neg h]
      have := lex_sp_plus pre2 (' ' :: (bodyChars u ++ tailChars ts'))
      simpa using this

lemma afterBody_cur_not (text : List Char) (n : Nat) (ts : List (Nat × Int)) :
    (afterBody text n ts).cur.type ≠ .OP_TIMES
    ∧ (afterBody text n ts).cur.type ≠ .VARIABLE
    ∧ (afterBody text n ts).cur.type ≠ .OP_EXPONENT
    ∧ ((afterBody text n ts).cur.type = .INTEGER → False) := by
  cases ts with
  | nil => simp [afterBody]
  | cons u ts' =>
    by_cases h : u.2 < 0 <;> simp [afterBody, sepTok, h]

end PolySrc

namespace PolySrc

lemma advance_after_body (pre2 : List Char) (ts : List (Nat × Int)) (cur : Token) :
    advance ⟨pre2 ++ tailChars ts, pre2.length, cur⟩
      = .ok (afterBody (pre2 ++ tailChars ts) pre2.length ts) := by
  rw [advance_eq cur (lex_after_body pre2 ts)]
  cases ts <;> rfl

lemma parse_node_const (pre : List Char) (t : Nat × Int) (ts : List (Nat × Int)) (h0 : t.1 = 0) :
    parse_node ⟨(pre ++ bodyChars t) ++ tailChars ts, (pre ++ fstTokChars t).length, fstTok t⟩
      = .ok (nodeOf t,
          afterBody ((pre ++ bodyChars t) ++ tailChars ts) (pre ++ bodyChars t).length ts) := by
  have hb : bodyChars t = natDigs t.2.natAbs := by rw [bodyChars, if_pos h0]
  have hft : fstTok t = ⟨.INTEGER, some ⟨natDigs t.2.natAbs⟩⟩ := by
    rw [fstTok, if_neg (by simp [h0])]
  have hfc : fstTokChars t = natDigs t.2.natAbs := by
    rw [fstTokChars, if_neg (by simp [h0])]
  have hnode : nodeOf t = ⟨(t.2.natAbs : Int), none, 0⟩ := by
    rw [nodeOf, varOf, if_pos h0, h0]
  rw [hb, hfc, hft, hnode]
  have hadv := advance_after_body (pre ++ natDigs t.2.natAbs) ts ⟨.INTEGER, some ⟨natDigs t.2.natAbs⟩⟩
  have hnot := afterBody_cur_not ((pre ++ natDigs t.2.natAbs) ++ tailChars ts)
    (pre ++ natDigs t.2.natAbs).length ts
  simp only [parse_node, hadv, hnot.1, hnot.2.1, hnot.2.2.1]
  simp only [List.append_assoc, List.length_append] at hnot
  simp [tokVal, digitsToNat_natDigs, hnot.1, hnot.2.1, hnot.2.2.1]

end PolySrc

namespace PolySrc

lemma parse_node_var1 (pre : List Char) (t : Nat × Int) (ts : List (Nat × Int))
    (h0 : t.1 ≠ 0) (h1 : t.2 = 1) :
    parse_node ⟨(pre ++ bodyChars t) ++ tailChars ts, (pre ++ fstTokChars t).length, fstTok t⟩
      = .ok (nodeOf t,
          afterBody ((pre ++ bodyChars t) ++ tailChars ts) (pre ++ bodyChars t).length ts) := by
  have hb : bodyChars t = 'x' :: expTail t.1 := by
    rw [bodyChars, if_neg h0, if_pos h1, List.nil_append]
  have hft : fstTok t = ⟨.VARIABLE, some "x"⟩ := by rw [fstTok, if_pos ⟨h0, h1⟩]
  have hfc : fstTokChars t = ['x'] := by rw [fstTokChars, if_pos ⟨h0, h1⟩]
  have hnode : nodeOf t = ⟨1, some "x", t.1⟩ := by
    rw [nodeOf, varOf, if_neg h0, h1]
    rfl
  rw [hb, hfc, hft, hnode]
  by_cases hp : t.1 = 1
  · have he : expTail t.1 = [] := by rw [expTail, if_pos hp]
    rw [he]
    have hadv := advance_after_body (pre ++ ['x']) ts ⟨.VARIABLE, some "x"⟩
    have hnot := afterBody_cur_not ((pre ++ ['x']) ++ tailChars ts) (pre ++ ['x']).length ts
    simp only [List.append_assoc, List.singleton_append, List.cons_append, List.nil_append,
      List.length_append, List.length_cons, List.length_nil, List.length_singleton,
      Nat.zero_add, Nat.add_zero] at hadv hnot
    simp only [List.append_assoc, List.singleton_append, List.cons_append, List.nil_append,
      List.length_append, List.length_cons, List.length_nil, List.length_singleton,
      Nat.zero_add, Nat.add_zero]
    simp only [parse_node, hadv, hnot.1, hnot.2.1, hnot.2.2.1, hp]
    simp [tokVal, hnot.1, hnot.2.1, hnot.2.2.1]
  · have he : expTail t.1 = '^' :: natDigs t.1 := by rw [expTail, if_neg hp]
    rw [he]
    have hadv1 : advance ⟨(pre ++ ('x' :: '^' :: natDigs t.1)) ++ tailChars ts,
        (pre ++ ['x']).length, ⟨.VARIABLE, some "x"⟩⟩
        = .ok ⟨(pre ++ ('x' :: '^' :: natDigs t.1)) ++ tailChars ts,
            (pre ++ ['x']).length + 1, ⟨.OP_EXPONENT, some "^"⟩⟩ := by
      have hform : (pre ++ ('x' :: '^' :: natDigs t.1)) ++ tailChars ts
          = (pre ++ ['x']) ++ ('^' :: (natDigs t.1 ++ tailChars ts)) := by simp
      rw [hform]
      exact advance_eq _ (lex_caret (pre ++ ['x']) _)
    have hadv2 : advance ⟨(pre ++ ('x' :: '^' :: natDigs t.1)) ++ tailChars ts,
        (pre ++ ['x']).length + 1, ⟨.OP_EXPONENT, some "^"⟩⟩
        = .ok ⟨(pre ++ ('x' :: '^' :: natDigs t.1)) ++ tailChars ts,
            (pre ++ ['x', '^']).length + (natDigs t.1).length,
            ⟨.INTEGER, some ⟨natDigs t.1⟩⟩⟩ := by
      have hform : (pre ++ ('x' :: '^' :: natDigs t.1)) ++ tailChars ts
          = (pre ++ ['x', '^']) ++ (natDigs t.1 ++ tailChars ts) := by simp
      have hlen : (pre ++ ['x']).length + 1 = (pre ++ ['x', '^']).length := by simp
      rw [hform, hlen]
      exact advance_eq _ (lex_digits (pre ++ ['x', '^']) _ t.1 (headNot_digit_tail ts))
    have hadv3 : advance ⟨(pre ++ ('x' :: '^' :: natDigs t.1)) ++ tailChars ts,
        (pre ++ ['x', '^']).length + (natDigs t.1).length, ⟨.INTEGER, some ⟨natDigs t.1⟩⟩⟩
        = .ok (afterBody ((pre ++ ('x' :: '^' :: natDigs t.1)) ++ tailChars ts)
            ((pre ++ ('x' :: '^' :: natDigs t.1))).length ts) := by
      have hlen : (pre ++ ['x', '^']).length + (natDigs t.1).length
          = (pre ++ ('x' :: '^' :: natDigs t.1)).length := by
        simp only [List.length_append, List.length_cons, List.length_nil]
        omega
      rw [hlen]
      exact advance_after_body (pre ++ ('x' :: '^' :: natDigs t.1)) ts _
    have hnot := afterBody_cur_not ((pre ++ ('x' :: '^' :: natDigs t.1)) ++ tailChars ts)
      ((pre ++ ('x' :: '^' :: natDigs t.1))).length ts
    simp only [List.append_assoc, List.singleton_append, List.cons_append, List.nil_append,
      List.length_append, List.length_cons, List.length_nil, List.length_singleton,
      Nat.zero_add, Nat.add_zero] at hadv1 hadv2 hadv3 hnot
    simp only [List.append_assoc, List.singleton_append, List.cons_append, List.nil_append,
      List.length_append, List.length_cons, List.length_nil, List.length_singleton,
      Nat.zero_add, Nat.add_zero]
    simp only [parse_node, hadv1, hadv2, hadv3]
    simp [tokVal, digitsToNat_natDigs, hadv1, hadv2, hadv3,
      hnot.1, hnot.2.1, hnot.2.2.1]

end PolySrc

namespace PolySrc

lemma parse_node_varN (pre : List Char) (t : Nat × Int) (ts : List (Nat × Int))
    (h0 : t.1 ≠ 0) (h1 : t.2 ≠ 1) :
    parse_node ⟨(pre ++ bodyChars t) ++ tailChars ts, (pre ++ fstTokChars t).length, fstTok t⟩
      = .ok (nodeOf t,
          afterBody ((pre ++ bodyChars t) ++ tailChars ts) (pre ++ bodyChars t).length ts) := by
  have hb : bodyChars t = natDigs t.2.natAbs ++ ('x' :: expTail t.1) := by
    rw [bodyChars, if_neg h0, if_neg h1]
  have hft : fstTok t = ⟨.INTEGER, some ⟨natDigs t.2.natAbs⟩⟩ := by
    rw [fstTok, if_neg (by simp [h1])]
  have hfc : fstTokChars t = natDigs t.2.natAbs := by
    rw [fstTokChars, if_neg (by simp [h1])]
  have hnode : nodeOf t = ⟨(t.2.natAbs : Int), some "x", t.1⟩ := by
    rw [nodeOf, varOf, if_neg h0]
  rw [hb, hfc, hft, hnode]
  have hadv1 : advance ⟨(pre ++ (natDigs t.2.natAbs ++ ('x' :: expTail t.1))) ++ tailChars ts,
      (pre ++ natDigs t.2.natAbs).length, ⟨.INTEGER, some ⟨natDigs t.2.natAbs⟩⟩⟩
      = .ok ⟨(pre ++ (natDigs t.2.natAbs ++ ('x' :: expTail t.1))) ++ tailChars ts,
          (pre ++ natDigs t.2.natAbs).length + 1, ⟨.VARIABLE, some "x"⟩⟩ := by
    have hform : (pre ++ (natDigs t.2.natAbs ++ ('x' :: expTail t.1))) ++ tailChars ts
        = (pre ++ natDigs t.2.natAbs) ++ ('x' :: (expTail t.1 ++ tailChars ts)) := by simp
    rw [hform]
    exact advance_eq _ (lex_var_x (pre ++ natDigs t.2.natAbs) _ (headNot_alpha_expTail t.1 ts))
  by_cases hp : t.1 = 1
  · have he : expTail t.1 = [] := by rw [expTail, if_pos hp]
    rw [he] at hadv1 ⊢
    have hadv2 : advance ⟨(pre ++ (natDigs t.2.natAbs ++ ['x'])) ++ tailChars ts,
        (pre ++ natDigs t.2.natAbs).length + 1, ⟨.VARIABLE, some "x"⟩⟩
        = .ok (afterBody ((pre ++ (natDigs t.2.natAbs ++ ['x'])) ++ tailChars ts)
            (pre ++ (natDigs t.2.natAbs ++ ['x'])).length ts) := by
      have hlen : (pre ++ natDigs t.2.natAbs).length + 1
          = (pre ++ (natDigs t.2.natAbs ++ ['x'])).length := by
        simp only [List.length_append, List.length_cons, List.length_nil]
        omega
      rw [hlen]
      exact advance_after_body (pre ++ (natDigs t.2.natAbs ++ ['x'])) ts _
    have hnot := afterBody_cur_not ((pre ++ (natDigs t.2.natAbs ++ ['x'])) ++ tailChars ts)
      (pre ++ (natDigs t.2.natAbs ++ ['x'])).length ts
    simp only [List.append_assoc, List.singleton_append, List.cons_append, List.nil_append,
      List.length_append, List.length_cons, List.length_nil, List.length_singleton,
      Nat.zero_add, Nat.add_zero] at hadv1 hadv2 hnot
    simp only [List.append_assoc, List.singleton_append, List.cons_append, List.nil_append,
      List.length_append, List.length_cons, List.length_nil, List.length_singleton,
      Nat.zero_add, Nat.add_zero]
    simp only [parse_node, hadv1, hadv2, hp]
    simp [tokVal, digitsToNat_natDigs, hadv1, hadv2, hnot.1, hnot.2.1, hnot.2.2.1]
  · have he : expTail t.1 = '^' :: natDigs t.1 := by rw [expTail, if_neg hp]
    rw [he] at hadv1 ⊢
    have hadv2 : advance ⟨(pre ++ (natDigs t.2.natAbs ++ ('x' :: '^' :: natDigs t.1)))
          ++ tailChars ts,
        (pre ++ natDigs t.2.natAbs).length + 1, ⟨.VARIABLE, some "x"⟩⟩
        = .ok ⟨(pre ++ (natDigs t.2.natAbs ++ ('x' :: '^' :: natDigs t.1))) ++ tailChars ts,
            (pre ++ natDigs t.2.natAbs).length + 2, ⟨.OP_EXPONENT, some "^"⟩⟩ := by
      have hform : (pre ++ (natDigs t.2.natAbs ++ ('x' :: '^' :: natDigs t.1))) ++ tailChars ts
          = (pre ++ natDigs t.2.natAbs ++ ['x']) ++ ('^' :: (natDigs t.1 ++ tailChars ts)) := by
        simp
      have hlen : (pre ++ natDigs t.2.natAbs).length + 1
          = (pre ++ natDigs t.2.natAbs ++ ['x']).length := by
        simp only [List.length_append, List.length_cons, List.length_nil]
      rw [hform, hlen]
      have := advance_eq (⟨.VARIABLE, some "x"⟩ : Token)
        (lex_caret (pre ++ natDigs t.2.natAbs ++ ['x']) (natDigs t.1 ++ tailChars ts))
      rw [this]
      have hlen2 : (pre ++ natDigs t.2.natAbs ++ ['x']).length + 1
          = (pre ++ natDigs t.2.natAbs).length + 2 := by
        simp only [List.length_append, List.length_cons, List.length_nil]
      rw [hlen2]
    have hadv3 : advance ⟨(pre ++ (natDigs t.2.natAbs ++ ('x' :: '^' :: natDigs t.1)))
          ++ tailChars ts,
        (pre ++ natDigs t.2.natAbs).length + 2, ⟨.OP_EXPONENT, some "^"⟩⟩
        = .ok ⟨(pre ++ (natDigs t.2.natAbs ++ ('x' :: '^' :: natDigs t.1))) ++ tailChars ts,
            (pre ++ natDigs t.2.natAbs).length + 2 + (natDigs t.1).length,
            ⟨.INTEGER, some ⟨natDigs t.1⟩⟩⟩ := by
      have hform : (pre ++ (natDigs t.2.natAbs ++ ('x' :: '^' :: natDigs t.1))) ++ tailChars ts
          = (pre ++ natDigs t.2.natAbs ++ ['x', '^']) ++ (natDigs t.1 ++ tailChars ts) := by
        simp
      have hlen : (pre ++ natDigs t.2.natAbs).length + 2
          = (pre ++ natDigs t.2.natAbs ++ ['x', '^']).length := by
        simp only [List.length_append, List.length_cons, List.length_nil]
      rw [hform, hlen]
      exact advance_eq _ (lex_digits (pre ++ natDigs t.2.natAbs ++ ['x', '^']) _ t.1
        (headNot_digit_tail ts))
    have hadv4 : advance ⟨(pre ++ (natDigs t.2.natAbs ++ ('x' :: '^' :: natDigs t.1)))
          ++ tailChars ts,
        (pre ++ natDigs t.2.natAbs).length + 2 + (natDigs t.1).length,
        ⟨.INTEGER, some ⟨natDigs t.1⟩⟩⟩
        = .ok (afterBody
            ((pre ++ (natDigs t.2.natAbs ++ ('x' :: '^' :: natDigs t.1))) ++ tailChars ts)
            (pre ++ (natDigs t.2.natAbs ++ ('x' :: '^' :: natDigs t.1))).length ts) := by
      have hlen : (pre ++ natDigs t.2.natAbs).length + 2 + (natDigs t.1).length
          = (pre ++ (natDigs t.2.natAbs ++ ('x' :: '^' :: natDigs t.1))).length := by
        simp only [List.length_append, List.length_cons, List.length_nil]
        omega
      rw [hlen]
      exact advance_after_body (pre ++ (natDigs t.2.natAbs ++ ('x' :: '^' :: natDigs t.1))) ts _
    have hnot := afterBody_cur_not
      ((pre ++ (natDigs t.2.natAbs ++ ('x' :: '^' :: natDigs t.1))) ++ tailChars ts)
      (pre ++ (natDigs t.2.natAbs ++ ('x' :: '^' :: natDigs t.1))).length ts
    simp only [List.append_assoc, List.singleton_append, List.cons_append, List.nil_append,
      List.length_append, List.length_cons, List.length_nil, List.length_singleton,
      Nat.zero_add, Nat.add_zero] at hadv1 hadv2 hadv3 hadv4 hnot
    simp only [List.append_assoc, List.singleton_append, List.cons_append, List.nil_append,
      List.length_append, List.length_cons, List.length_nil, List.length_singleton,
      Nat.zero_add, Nat.add_zero]
    simp only [parse_node, hadv1, hadv2, hadv3, hadv4]
    simp [tokVal, digitsToNat_natDigs, hadv1, hadv2, hadv3, hadv4,
      hnot.1, hnot.2.1, hnot.2.2.1]

end PolySrc

namespace PolySrc

lemma parse_node_term (pre : List Char) (t : Nat × Int) (ts : List (Nat × Int)) :
    parse_node ⟨(pre ++ bodyChars t) ++ tailChars ts, (pre ++ fstTokChars t).length, fstTok t⟩
      = .ok (nodeOf t,
          afterBody ((pre ++ bodyChars t) ++ tailChars ts) (pre ++ bodyChars t).length ts) := by
  by_cases h0 : t.1 = 0
  · exact parse_node_const pre t ts h0
  · by_cases h1 : t.2 = 1
    · exact parse_node_var1 pre t ts h0 h1
    · exact parse_node_varN pre t ts h0 h1

lemma fstTok_ne_eof (t : Nat × Int) : (fstTok t).type ≠ .EOF := by
  rw [fstTok]
  by_cases h : t.1 ≠ 0 ∧ t.2 = 1 <;> simp [h]

lemma headNot_digit_bodyTail (t : Nat × Int) (ts : List (Nat × Int)) :
    headNot Char.isDigit (bodyTail t ++ tailChars ts) := by
  rw [bodyTail]
  by_cases h0 : t.1 = 0
  · rw [if_pos h0]
    exact headNot_digit_tail ts
  · rw [if_neg h0]
    by_cases h1 : t.2 = 1
    · rw [if_pos h1, expTail]
      by_cases hp : t.1 = 1
      · rw [if_pos hp]
        exact headNot_digit_tail ts
      · rw [if_neg hp]
        exact (by decide : ('^' : Char).isDigit = false)
    · rw [if_neg h1]
      exact (by decide : ('x' : Char).isDigit = false)

lemma parse_addop_eof (pre2 : List Char) :
    parse_addop ⟨pre2 ++ tailChars [], pre2.length, ⟨.EOF, none⟩⟩
      = .ok (none, ⟨pre2 ++ tailChars [], pre2.length, ⟨.EOF, none⟩⟩) := by
  have hadv : advance ⟨pre2 ++ tailChars [], pre2.length, (⟨.EOF, none⟩ : Token)⟩
      = .ok ⟨pre2 ++ tailChars [], pre2.length, ⟨.EOF, none⟩⟩ := by
    have h : pre2 ++ tailChars [] = pre2 := by
      rw [tailChars, List.append_nil]
    rw [advance]
    rw [show getNextToken (pre2 ++ tailChars []) pre2.length = .ok (⟨.EOF, none⟩, pre2.length)
      from by rw [h]; exact lex_eof pre2]
  simp [parse_addop, hadv]

lemma parse_addop_sep (pre2 : List Char) (u : Nat × Int) (ts' : List (Nat × Int)) :
    parse_addop ⟨pre2 ++ tailChars (u :: ts'), pre2.length + 2, sepTok u.2⟩
      = .ok (some (signAdd u.2),
          ⟨pre2 ++ tailChars (u :: ts'),
           ((pre2 ++ sepChars u.2) ++ fstTokChars u).length, fstTok u⟩) := by
  have hsp : ∃ s : Char, sepChars u.2 = [' ', s, ' '] ∧ sepTok u.2
      = (if u.2 < 0 then (⟨.OP_MINUS, some "-"⟩ : Token) else ⟨.OP_PLUS, some "+"⟩)
      ∧ signAdd u.2 = (if u.2 < 0 then '-' else '+') := by
    rw [sepChars, sepTok, signAdd]
    by_cases h : u.2 < 0
    · exact ⟨'-', by rw [if_pos h], rfl, rfl⟩
    · exact ⟨'+', by rw [if_neg h], rfl, rfl⟩
  obtain ⟨s, hs, hstok, hsign⟩ := hsp
  have hadv : advance ⟨pre2 ++ tailChars (u :: ts'), pre2.length + 2, sepTok u.2⟩
      = .ok ⟨pre2 ++ tailChars (u :: ts'),
          ((pre2 ++ sepChars u.2) ++ fstTokChars u).length, fstTok u⟩ := by
    have hform : pre2 ++ tailChars (u :: ts')
        = (pre2 ++ [' ', s]) ++ (' ' :: (bodyChars u ++ tailChars ts')) := by
      show pre2 ++ (sepChars u.2 ++ bodyChars u ++ tailChars ts') = _
      rw [hs]
      simp
    have hlen : pre2.length + 2 = (pre2 ++ [' ', s]).length := by
      simp only [List.length_append, List.length_cons, List.length_nil]
    rw [hform, hlen]
    by_cases hsh : u.1 ≠ 0 ∧ u.2 = 1
    · have hbody : bodyChars u = 'x' :: expTail u.1 := by
        rw [bodyChars, if_neg hsh.1, if_pos hsh.2, List.nil_append]
      have hft : fstTok u = ⟨.VARIABLE, some "x"⟩ := by rw [fstTok, if_pos hsh]
      have hfc : fstTokChars u = ['x'] := by rw [fstTokChars, if_pos hsh]
      rw [hbody, hft, hfc]
      have hx := lex_sp_var_x (pre2 ++ [' ', s]) (expTail u.1 ++ tailChars ts')
        (headNot_alpha_expTail u.1 ts')
      have hthis := advance_eq (sepTok u.2) hx
      simp only [List.append_assoc, List.cons_append, List.nil_append] at hthis ⊢
      rw [hthis, hs]
      congr 2
      all_goals simp only [List.length_append, List.length_cons, List.length_nil]
    · have hft : fstTok u = ⟨.INTEGER, some ⟨natDigs u.2.natAbs⟩⟩ := by
        rw [fstTok, if_neg hsh]
      have hfc : fstTokChars u = natDigs u.2.natAbs := by rw [fstTokChars, if_neg hsh]
      have hbody : bodyChars u = natDigs u.2.natAbs ++ bodyTail u := by
        rw [bodyChars_eq, hfc]
      rw [hbody, hft, hfc]
      have hx := lex_sp_digits (pre2 ++ [' ', s]) (bodyTail u ++ tailChars ts') u.2.natAbs
        (headNot_digit_bodyTail u ts')
      have hthis := advance_eq (sepTok u.2) hx
      simp only [List.append_assoc, List.cons_append, List.nil_append] at hthis ⊢
      rw [hthis, hs]
      congr 2
      all_goals simp only [List.length_append, List.length_cons, List.length_nil]
      all_goals omega
  simp only [parse_addop, hadv]
  rw [hstok, hsign]
  by_cases h : u.2 < 0 <;> simp [h]

end PolySrc

namespace PolySrc

lemma parseLoop_terms : ∀ (ts : List (Nat × Int)) (t : Nat × Int) (pre : List Char) (f : Nat),
    ts.length + 2 ≤ f →
    parseLoop f ⟨(pre ++ bodyChars t) ++ tailChars ts, (pre ++ fstTokChars t).length, fstTok t⟩
      = .ok (itemsOf t ts) := by
  intro ts
  induction ts with
  | nil =>
    intro t pre f hf
    match f, hf with
    | f'' + 2, _ =>
      rw [parseLoop, if_neg (fstTok_ne_eof t), parse_node_term pre t []]
      have hab : afterBody ((pre ++ bodyChars t) ++ tailChars [])
          (pre ++ bodyChars t).length ([] : List (Nat × Int))
          = ⟨(pre ++ bodyChars t) ++ tailChars [], (pre ++ bodyChars t).length,
              ⟨.EOF, none⟩⟩ := rfl
      have hpe := parse_addop_eof (pre ++ bodyChars t)
      have hpl : parseLoop (f'' + 1) ⟨(pre ++ bodyChars t) ++ tailChars [],
          (pre ++ bodyChars t).length, ⟨.EOF, none⟩⟩ = .ok [] := by
        rw [parseLoop]
        rfl
      simp only [hab, hpe, hpl]
      rfl
  | cons u ts' ih =>
    intro t pre f hf
    match f, hf with
    | f' + 1, hf2 =>
      rw [parseLoop, if_neg (fstTok_ne_eof t), parse_node_term pre t (u :: ts')]
      have hab : afterBody ((pre ++ bodyChars t) ++ tailChars (u :: ts'))
          (pre ++ bodyChars t).length (u :: ts')
          = ⟨(pre ++ bodyChars t) ++ tailChars (u :: ts'),
             (pre ++ bodyChars t).length + 2, sepTok u.2⟩ := rfl
      have hps := parse_addop_sep (pre ++ bodyChars t) u ts'
      have hih := ih u (pre ++ bodyChars t ++ sepChars u.2) f' (by
        simp only [List.length_cons] at hf2
        omega)
      have hform : ((pre ++ bodyChars t ++ sepChars u.2) ++ bodyChars u) ++ tailChars ts'
          = (pre ++ bodyChars t) ++ tailChars (u :: ts') := by
        show _ = (pre ++ bodyChars t) ++ (sepChars u.2 ++ bodyChars u ++ tailChars ts')
        simp [List.append_assoc]
      rw [hform] at hih
      simp only [hab, hps, hih]
      rfl

lemma tailChars_length_ge (ts : List (Nat × Int)) : ts.length ≤ (tailChars ts).length := by
  induction ts with
  | nil => simp [tailChars]
  | cons u ts' ih =>
    show (ts'.length + 1) ≤ (sepChars u.2 ++ bodyChars u ++ tailChars ts').length
    have h3 : (sepChars u.2).length = 3 := by
      rw [sepChars]
      by_cases h : u.2 < 0 <;> simp [h]
    simp only [List.length_append, h3]
    omega

lemma headNot_of_bodyTok (t : Nat × Int) (ts : List (Nat × Int)) :
    parseTermList ⟨bodyChars t ++ tailChars ts⟩
      = parseLoop ((bodyChars t ++ tailChars ts).length + 1)
          ⟨([] ++ bodyChars t) ++ tailChars ts, ([] ++ fstTokChars t).length, fstTok t⟩ := by
  rw [parseTermList]
  have htext : (⟨bodyChars t ++ tailChars ts⟩ : String).data = bodyChars t ++ tailChars ts := rfl
  rw [htext]
  have hsplit : bodyChars t ++ tailChars ts = fstTokChars t ++ (bodyTail t ++ tailChars ts) := by
    rw [bodyChars_eq t]
    simp [List.append_assoc]
  have hlex : getNextToken (bodyChars t ++ tailChars ts) 0
      = .ok (fstTok t, (fstTokChars t).length) := by
    rw [hsplit]
    by_cases hsh : t.1 ≠ 0 ∧ t.2 = 1
    · have hfc : fstTokChars t = ['x'] := by rw [fstTokChars, if_pos hsh]
      have hft : fstTok t = ⟨.VARIABLE, some "x"⟩ := by rw [fstTok, if_pos hsh]
      rw [hfc, hft]
      have hbt : bodyTail t = expTail t.1 := by
        rw [bodyTail, if_neg hsh.1, if_pos hsh.2]
      rw [hbt]
      have := lex_var_x [] (expTail t.1 ++ tailChars ts) (headNot_alpha_expTail t.1 ts)
      simpa using this
    · have hfc : fstTokChars t = natDigs t.2.natAbs := by rw [fstTokChars, if_neg hsh]
      have hft : fstTok t = ⟨.INTEGER, some ⟨natDigs t.2.natAbs⟩⟩ := by rw [fstTok, if_neg hsh]
      rw [hfc, hft]
      have := lex_digits [] (bodyTail t ++ tailChars ts) t.2.natAbs
        (headNot_digit_bodyTail t ts)
      simpa using this
  rw [hlex]
  simp

lemma parseTermList_terms (t : Nat × Int) (ts : List (Nat × Int)) :
    parseTermList ⟨bodyChars t ++ tailChars ts⟩ = .ok (itemsOf t ts) := by
  rw [headNot_of_bodyTok t ts]
  apply parseLoop_terms
  have h1 : 1 ≤ (bodyChars t).length := by
    have := bodyChars_ne_nil t
    cases hb : bodyChars t with
    | nil => exact absurd hb this
    | cons c l => simp
  have h2 := tailChars_length_ge ts
  simp only [List.length_append]
  omega

end PolySrc

namespace PolySrc

/-- The signed node that sign-folding produces for a rendered term. -/
def nodeSigned (u : Nat × Int) : Node := ⟨u.2, varOf u.1, u.1⟩

/-- The character contribution of `" + ".join` after the first string. -/
def joinData : List String → List Char
  | [] => []
  | s :: ss => ' ' :: '+' :: ' ' :: (s.data ++ joinData ss)

lemma joinPlus_data : ∀ (ss : List String) (s0 : String),
    (joinPlus (s0 :: ss)).data = s0.data ++ joinData ss := by
  intro ss
  induction ss with
  | nil =>
    intro s0
    rw [joinPlus, joinData, List.append_nil]
  | cons s1 ss' ih =>
    intro s0
    rw [joinPlus, joinData]
    rw [String.data_append, String.data_append, ih s1]
    simp

lemma natStr_data (n : Nat) : (natStr n).data = natDigs n := rfl

lemma intStr_data_nonneg (i : Int) (h : 0 ≤ i) : (intStr i).data = natDigs i.natAbs := by
  rw [intStr, if_neg (by omega)]
  rfl

lemma intStr_data_neg (i : Int) (h : i < 0) : (intStr i).data = '-' :: natDigs i.natAbs := by
  rw [intStr, if_pos h, String.data_append]
  rfl

lemma termStr_data_pos (t : Nat × Int) (hc : 0 < t.2) (hne1 : ¬(t.1 = 0 ∧ t.2 = 1)) :
    (termStr "x" t.1 t.2).data = bodyChars t := by
  rw [termStr, bodyChars, String.data_append]
  by_cases h1 : t.2 = 1
  · have h0 : t.1 ≠ 0 := fun hh => hne1 ⟨hh, h1⟩
    rw [if_pos h1, if_neg h0, if_pos h1, expTail]
    by_cases hp : t.1 = 1
    · rw [if_neg h0, if_pos hp, if_pos hp]
    · rw [if_neg h0, if_neg hp, if_neg hp]
      simp [String.data_append, natStr]
  · rw [if_neg h1, intStr_data_nonneg t.2 (by omega)]
    by_cases h0 : t.1 = 0
    · rw [if_pos h0, if_pos h0, List.append_nil]
    · rw [if_neg h0, if_neg h0, expTail, if_neg h1]
      by_cases hp : t.1 = 1
      · rw [if_pos hp, if_pos hp]
      · rw [if_neg hp, if_neg hp]
        simp [String.data_append, natStr]

lemma termStr_data_neg (t : Nat × Int) (hc : t.2 < 0) :
    (termStr "x" t.1 t.2).data = '-' :: bodyChars t := by
  have h1 : t.2 ≠ 1 := by omega
  rw [termStr, bodyChars, String.data_append, if_neg h1, intStr_data_neg t.2 hc]
  by_cases h0 : t.1 = 0
  · rw [if_pos h0, if_pos h0, List.append_nil]
  · rw [if_neg h0, if_neg h0, expTail, if_neg h1]
    by_cases hp : t.1 = 1
    · rw [if_pos hp, if_pos hp]
      simp
    · rw [if_neg hp, if_neg hp]
      simp [String.data_append, natStr]

end PolySrc

namespace PolySrc

lemma rpm_cons_ne (c : Char) (rest : List Char) (hc : c ≠ '+') :
    replacePlusMinus (c :: rest) = c :: replacePlusMinus rest := by
  rw [replacePlusMinus.eq_def]
  split
  · rename_i heq
    injection heq with h1 h2
    exact absurd h1 hc
  · rename_i h1 h2
    injection h2 with h3 h4
    rw [h3, h4]
  · rename_i heq
    simp at heq

lemma rpm_pattern (rest : List Char) :
    replacePlusMinus ('+' :: ' ' :: '-' :: rest) = '-' :: ' ' :: replacePlusMinus rest := rfl

lemma rpm_plus_sp_notminus (c : Char) (rest : List Char) (hc : c ≠ '-') :
    replacePlusMinus ('+' :: ' ' :: c :: rest)
      = '+' :: ' ' :: replacePlusMinus (c :: rest) := by
  rw [replacePlusMinus.eq_def]
  split
  · rename_i heq
    injection heq with h1 h2
    injection h2 with h3 h4
    injection h4 with h5 h6
    exact absurd h5 hc
  · rename_i h1 h2
    injection h2 with h3 h4
    rw [← h3, ← h4]
    rw [rpm_cons_ne ' ' _ (by decide)]
  · rename_i heq
    simp at heq

lemma rpm_not_plus : ∀ (l1 l2 : List Char), '+' ∉ l1 →
    replacePlusMinus (l1 ++ l2) = l1 ++ replacePlusMinus l2 := by
  intro l1
  induction l1 with
  | nil => intro l2 h; rfl
  | cons c l1' ih =>
    intro l2 h
    rw [List.cons_append, rpm_cons_ne c _ (fun hh => h (hh ▸ List.mem_cons_self c l1')),
      ih l2 (fun hm => h (List.mem_cons_of_mem c hm))]
    rfl

lemma rpm_no_plus (l : List Char) (h : '+' ∉ l) : replacePlusMinus l = l := by
  have := rpm_not_plus l [] h
  rw [List.append_nil] at this
  rw [this, show replacePlusMinus [] = [] from rfl, List.append_nil]

lemma plus_not_mem_natDigs (n : Nat) : ('+' : Char) ∉ natDigs n := by
  intro hmem
  have := natDigs_all_digit n '+' hmem
  simp at this

lemma plus_not_mem_body (t : Nat × Int) : ('+' : Char) ∉ bodyChars t := by
  rw [bodyChars]
  by_cases h0 : t.1 = 0
  · rw [if_pos h0]
    exact plus_not_mem_natDigs _
  · rw [if_neg h0]
    intro hmem
    rcases List.mem_append.mp hmem with h1 | h2
    · by_cases hc : t.2 = 1
      · rw [if_pos hc] at h1
        simp at h1
      · rw [if_neg hc] at h1
        exact plus_not_mem_natDigs _ h1
    · rcases List.mem_cons.mp h2 with h3 | h4
      · simp at h3
      · rw [expTail] at h4
        by_cases hp : t.1 = 1
        · rw [if_pos hp] at h4
          simp at h4
        · rw [if_neg hp] at h4
          rcases List.mem_cons.mp h4 with h5 | h6
          · simp at h5
          · exact plus_not_mem_natDigs _ h6

lemma bodyChars_head_spec (t : Nat × Int) :
    ∃ c cs, bodyChars t = c :: cs ∧ c ≠ '-' ∧ c ≠ '+' := by
  have hne := bodyChars_ne_nil t
  obtain ⟨c, cs, hcs⟩ := List.exists_cons_of_ne_nil hne
  refine ⟨c, cs, hcs, ?_, ?_⟩
  all_goals (
    rw [bodyChars] at hcs
    by_cases h0 : t.1 = 0)
  · rw [if_pos h0] at hcs
    have hd : c.isDigit = true := natDigs_all_digit _ c (by rw [hcs]; exact List.mem_cons_self _ _)
    have := isDigit_class hd
    exact this.2.2.2.1
  · rw [if_neg h0] at hcs
    by_cases hc : t.2 = 1
    · rw [if_pos hc, List.nil_append] at hcs
      injection hcs with hc1 hc2
      rw [← hc1]
      decide
    · rw [if_neg hc] at hcs
      obtain ⟨d, ds, hds⟩ := List.exists_cons_of_ne_nil (natDigs_ne_nil t.2.natAbs)
      rw [hds, List.cons_append] at hcs
      injection hcs with hc1 hc2
      have hd : d.isDigit = true := natDigs_all_digit _ d (by rw [hds]; exact List.mem_cons_self _ _)
      rw [← hc1]
      exact (isDigit_class hd).2.2.2.1
  · rw [if_pos h0] at hcs
    have hd : c.isDigit = true := natDigs_all_digit _ c (by rw [hcs]; exact List.mem_cons_self _ _)
    have := isDigit_class hd
    exact this.2.2.1
  · rw [if_neg h0] at hcs
    by_cases hc : t.2 = 1
    · rw [if_pos hc, List.nil_append] at hcs
      injection hcs with hc1 hc2
      rw [← hc1]
      decide
    · rw [if_neg hc] at hcs
      obtain ⟨d, ds, hds⟩ := List.exists_cons_of_ne_nil (natDigs_ne_nil t.2.natAbs)
      rw [hds, List.cons_append] at hcs
      injection hcs with hc1 hc2
      have hd : d.isDigit = true := natDigs_all_digit _ d (by rw [hds]; exact List.mem_cons_self _ _)
      rw [← hc1]
      exact (isDigit_class hd).2.2.1

end PolySrc

namespace PolySrc

lemma rpm_sepJoin : ∀ (ts : List (Nat × Int)) (b : List Char), ('+' : Char) ∉ b →
    (∀ u ∈ ts, u.2 ≠ 0 ∧ u.1 ≠ 0) →
    replacePlusMinus (b ++ joinData (ts.map (fun u => termStr "x" u.1 u.2)))
      = b ++ tailChars ts := by
  intro ts
  induction ts with
  | nil =>
    intro b hb hts
    rw [List.map_nil, joinData, List.append_nil, rpm_no_plus b hb, tailChars, List.append_nil]
  | cons u ts' ih =>
    intro b hb hts
    rw [List.map_cons, joinData]
    have hu := hts u (List.mem_cons_self u ts')
    have hts' : ∀ v ∈ ts', v.2 ≠ 0 ∧ v.1 ≠ 0 := fun v hv => hts v (List.mem_cons_of_mem u hv)
    have hb1 : ('+' : Char) ∉ b ++ [' '] := by
      intro hmem
      rcases List.mem_append.mp hmem with h1 | h2
      · exact hb h1
      · simp at h2
    by_cases hneg : u.2 < 0
    · have hterm : (termStr "x" u.1 u.2).data = '-' :: bodyChars u := termStr_data_neg u hneg
      rw [hterm]
      have hform : b ++ (' ' :: '+' :: ' ' :: (('-' :: bodyChars u)
            ++ joinData (ts'.map (fun v => termStr "x" v.1 v.2))))
          = (b ++ [' ']) ++ ('+' :: ' ' :: '-'
              :: (bodyChars u ++ joinData (ts'.map (fun v => termStr "x" v.1 v.2)))) := by
        simp
      rw [hform, rpm_not_plus _ _ hb1, rpm_pattern,
        ih (bodyChars u) (plus_not_mem_body u) hts']
      rw [tailChars, sepChars, if_pos hneg]
      simp
    · have hpos : 0 < u.2 := by
        rcases lt_trichotomy u.2 0 with h | h | h
        · exact absurd h hneg
        · exact absurd h hu.1
        · exact h
      have hterm : (termStr "x" u.1 u.2).data = bodyChars u :=
        termStr_data_pos u hpos (fun hh => hu.2 hh.1)
      rw [hterm]
      obtain ⟨c0, cs0, hcs, hcm, hcp⟩ := bodyChars_head_spec u
      have hform : b ++ (' ' :: '+' :: ' ' :: (bodyChars u
            ++ joinData (ts'.map (fun v => termStr "x" v.1 v.2))))
          = (b ++ [' ']) ++ ('+' :: ' ' :: c0
              :: (cs0 ++ joinData (ts'.map (fun v => termStr "x" v.1 v.2)))) := by
        rw [hcs]
        simp
      rw [hform, rpm_not_plus _ _ hb1, rpm_plus_sp_notminus c0 _ hcm]
      have hih := ih (bodyChars u) (plus_not_mem_body u) hts'
      rw [hcs] at hih
      rw [show (c0 :: (cs0 ++ joinData (ts'.map (fun v => termStr "x" v.1 v.2))))
          = (c0 :: cs0) ++ joinData (ts'.map (fun v => termStr "x" v.1 v.2)) from by simp]
      rw [hih]
      rw [tailChars, sepChars, if_neg hneg, hcs]
      simp

end PolySrc

namespace PolySrc

lemma toStr_eq_render (c : List Int) (t0 : Nat × Int) (ts : List (Nat × Int))
    (hT : c.enum.filter (fun pc => pc.2 != 0) = t0 :: ts)
    (hpos : 0 < t0.2) (hne1 : ¬(t0.1 = 0 ∧ t0.2 = 1))
    (hts : ∀ u ∈ ts, u.2 ≠ 0 ∧ u.1 ≠ 0) :
    (Polynomial.make c none).toStr = ⟨bodyChars t0 ++ tailChars ts⟩ := by
  rw [Polynomial.toStr]
  have hco : (Polynomial.make c none).coeffs = c := rfl
  have hdi : (Polynomial.make c none).disp_ch = "x" := rfl
  rw [hco, hdi, hT, List.map_cons, joinPlus_data, termStr_data_pos t0 hpos hne1,
    rpm_sepJoin ts (bodyChars t0) (plus_not_mem_body t0) hts]

lemma fst_ge_enumFrom : ∀ (c : List Int) (k : Nat) (u : Nat × Int),
    u ∈ List.enumFrom k c → k ≤ u.1 := by
  intro c
  induction c with
  | nil => intro k u h; simp at h
  | cons a c' ih =>
    intro k u h
    rw [List.enumFrom_cons] at h
    rcases List.mem_cons.mp h with h1 | h2
    · rw [h1]
    · have := ih (k + 1) u h2
      omega

lemma pairwise_fst_enumFrom : ∀ (c : List Int) (k : Nat),
    (List.enumFrom k c).Pairwise (fun a b => a.1 < b.1) := by
  intro c
  induction c with
  | nil => intro k; simp
  | cons a c' ih =>
    intro k
    rw [List.enumFrom_cons]
    refine List.Pairwise.cons ?_ (ih (k + 1))
    intro u hu
    have := fst_ge_enumFrom c' (k + 1) u hu
    omega

lemma head_filter_enum : ∀ (c : List Int) (k : Nat), (∃ x ∈ c, x ≠ 0) →
    ∃ ts', (List.enumFrom k c).filter (fun pc => pc.2 != 0)
      = (k + c.findIdx (fun x => x != 0),
         c.getD (c.findIdx (fun x => x != 0)) 0) :: ts' := by
  intro c
  induction c with
  | nil =>
    intro k h
    obtain ⟨x, hx, _⟩ := h
    simp at hx
  | cons a c' ih =>
    intro k h
    rw [List.enumFrom_cons, List.filter_cons]
    by_cases ha : a = 0
    · subst ha
      have hcond : (((k, (0 : Int)).2 != 0) = true) = False := by simp
      rw [if_neg (by simp)]
      have h' : ∃ x ∈ c', x ≠ 0 := by
        obtain ⟨x, hx, hxn⟩ := h
        rcases List.mem_cons.mp hx with h1 | h2
        · exact absurd h1 hxn
        · exact ⟨x, h2, hxn⟩
      obtain ⟨ts', hts'⟩ := ih (k + 1) h'
      refine ⟨ts', ?_⟩
      rw [hts']
      have hidx : ((0 : Int) :: c').findIdx (fun x => x != 0)
          = c'.findIdx (fun x => x != 0) + 1 := by
        rw [List.findIdx_cons]
        simp
      rw [hidx, List.getD_cons_succ]
      have harith : k + 1 + c'.findIdx (fun x => x != 0)
          = k + (c'.findIdx (fun x => x != 0) + 1) := by omega
      rw [harith]
    · rw [if_pos (by simp [ha])]
      refine ⟨(List.enumFrom (k + 1) c').filter (fun pc => pc.2 != 0), ?_⟩
      have hidx : (a :: c').findIdx (fun x => x != 0) = 0 := by
        rw [List.findIdx_cons, show (a != 0) = true from by simp [ha]]
        rfl
      rw [hidx, List.getD_cons_zero]
      simp

lemma getLast?_enumFrom : ∀ (c : List Int) (k : Nat),
    (List.enumFrom k c).getLast? = c.getLast?.map (fun a => (k + c.length - 1, a)) := by
  intro c
  induction c with
  | nil => intro k; rfl
  | cons a c' ih =>
    intro k
    cases c' with
    | nil => simp [List.enumFrom_cons]
    | cons b c'' =>
      rw [List.enumFrom_cons, List.enumFrom_cons, List.getLast?_cons_cons,
        ← List.enumFrom_cons, ih (k + 1), List.getLast?_cons_cons]
      cases hl : (b :: c'').getLast? with
      | none => rfl
      | some y =>
        show some (k + 1 + (b :: c'').length - 1, y) = some (k + (a :: b :: c'').length - 1, y)
        have : k + 1 + (b :: c'').length - 1 = k + (a :: b :: c'').length - 1 := by
          simp only [List.length_cons]
          omega
        rw [this]

lemma filter_last_mem : ∀ (l : List (Nat × Int)) (x : Nat × Int),
    l.getLast? = some x → (fun pc => pc.2 != 0) x = true →
    (l.filter (fun pc => pc.2 != 0)).getLast? = some x := by
  intro l
  induction l with
  | nil => intro x h _; simp at h
  | cons a l' ih =>
    intro x h hx
    cases l' with
    | nil =>
      have hax : a = x := by
        simp at h
        exact h
      rw [List.filter_cons, hax, if_pos hx]
      rfl
    | cons b l'' =>
      rw [List.getLast?_cons_cons] at h
      have hF := ih x h hx
      rw [List.filter_cons]
      by_cases ha : (fun pc => pc.2 != 0) a = true
      · rw [if_pos ha]
        have hFne : (b :: l'').filter (fun pc => pc.2 != 0) ≠ [] := by
          intro hnil
          rw [hnil] at hF
          simp at hF
        obtain ⟨f, F', hf⟩ := List.exists_cons_of_ne_nil hFne
        rw [hf] at hF ⊢
        rw [List.getLast?_cons_cons]
        exact hF
      · rw [if_neg ha]
        exact hF

end PolySrc

namespace PolySrc

lemma go_itemsTail : ∀ (ts : List (Nat × Int)), (∀ u ∈ ts, u.2 ≠ 0) → ∀ (b : Bool),
    normalizeSigns.go (itemsTail ts) b = ts.map nodeSigned := by
  intro ts
  induction ts with
  | nil => intro _ b; rfl
  | cons u ts' ih =>
    intro h b
    have hu : u.2 ≠ 0 := h u (List.mem_cons_self u ts')
    rw [itemsTail]
    show normalizeSigns.go (.node (nodeOf u) :: itemsTail ts') (decide (signAdd u.2 = '-')) = _
    rw [normalizeSigns.go]
    rw [ih (fun v hv => h v (List.mem_cons_of_mem u hv)) _]
    rw [List.map_cons]
    congr 1
    rw [signAdd, nodeOf, nodeSigned]
    by_cases hneg : u.2 < 0
    · rw [if_pos hneg]
      have hd : decide (('-' : Char) = '-') = true := by decide
      rw [hd, if_pos rfl]
      have : (-1 : Int) * (u.2.natAbs : Int) = u.2 := by
        have := Int.ofNat_natAbs_of_nonpos (le_of_lt hneg)
        omega
      simp only [this]
    · rw [if_neg hneg]
      have hd : decide (('+' : Char) = '-') = false := by decide
      rw [hd]
      show Node.mk (u.2.natAbs : Int) (varOf u.1) u.1 = _
      have : ((u.2.natAbs : Int)) = u.2 := Int.natAbs_of_nonneg (by omega)
      rw [this]

lemma normalizeSigns_items (t0 : Nat × Int) (ts : List (Nat × Int))
    (h0 : 0 ≤ t0.2) (hts : ∀ u ∈ ts, u.2 ≠ 0) :
    normalizeSigns (itemsOf t0 ts) = nodeSigned t0 :: ts.map nodeSigned := by
  rw [normalizeSigns, itemsOf]
  show normalizeSigns.go (.node (nodeOf t0) :: itemsTail ts) false = _
  rw [normalizeSigns.go]
  rw [go_itemsTail ts hts false]
  congr 1
  rw [nodeOf, nodeSigned]
  have : ((t0.2.natAbs : Int)) = t0.2 := Int.natAbs_of_nonneg h0
  rw [if_neg (by simp), this]

lemma sortNodes_sorted : ∀ (l : List Node),
    List.Pairwise (fun a b => a.exponent ≤ b.exponent) l → sortNodes l = l := by
  intro l
  induction l with
  | nil => intro _; rfl
  | cons n rest ih =>
    intro h
    rw [sortNodes, ih (List.Pairwise.sublist (List.sublist_cons_self n rest) h)]
    cases rest with
    | nil => rfl
    | cons m rest' =>
      rw [insort, if_pos (List.rel_of_pairwise_cons h (List.mem_cons_self m rest'))]

lemma checkDup_ok : ∀ (l : List Node) (seen : List Nat),
    List.Pairwise (fun a b => a.exponent ≠ b.exponent) l →
    (∀ n ∈ l, n.exponent ∉ seen) → checkDup l seen = .ok () := by
  intro l
  induction l with
  | nil => intro seen _ _; rfl
  | cons n rest ih =>
    intro seen hp hs
    rw [checkDup, if_neg (hs n (List.mem_cons_self n rest))]
    refine ih _ (List.Pairwise.sublist (List.sublist_cons_self n rest) hp) ?_
    intro m hm hmem
    rcases List.mem_cons.mp hmem with h1 | h2
    · exact List.rel_of_pairwise_cons hp hm h1.symm
    · exact hs m (List.mem_cons_of_mem n hm) h2

lemma checkVar_opt : ∀ (l : List Node), (∀ m ∈ l, m.var_name = some "x") →
    ∀ v0 : Option String, (v0 = none ∨ v0 = some "x") →
    ∃ w, checkVar l v0 = .ok w ∧ w.getD "x" = "x" := by
  intro l
  induction l with
  | nil =>
    intro _ v0 hv
    refine ⟨v0, rfl, ?_⟩
    rcases hv with h | h <;> rw [h] <;> rfl
  | cons m rest ih =>
    intro h v0 hv
    have hm : m.var_name = some "x" := h m (List.mem_cons_self m rest)
    have hrest : ∀ n ∈ rest, n.var_name = some "x" :=
      fun n hn => h n (List.mem_cons_of_mem m hn)
    rcases hv with hvn | hvx
    · rw [hvn]
      rw [show checkVar (m :: rest) none = checkVar rest m.var_name from by rw [checkVar]]
      rw [hm]
      exact ih hrest (some "x") (Or.inr rfl)
    · rw [hvx]
      rw [show checkVar (m :: rest) (some "x")
          = if m.var_name = some "x" then checkVar rest (some "x")
            else .error (.mixedVariable "x" m.var_name) from by rw [checkVar]]
      rw [if_pos hm]
      exact ih hrest (some "x") (Or.inr rfl)

lemma maxExponent_chain : ∀ (rest : List Node) (n0 : Node),
    List.Chain' (fun a b => a.exponent < b.exponent) (n0 :: rest) →
    maxExponent n0 rest = (rest.getLastD n0).exponent := by
  intro rest
  induction rest with
  | nil => intro n0 _; rfl
  | cons m rest' ih =>
    intro n0 hch
    obtain ⟨h1, hch'⟩ := List.chain'_cons.mp hch
    rw [maxExponent, List.foldl_cons, if_pos h1]
    rw [show ((rest'.foldl (fun m n => if m.exponent < n.exponent then n else m) m).exponent)
        = maxExponent m rest' from rfl]
    rw [ih m hch', List.getLastD_cons]

lemma coeffAt_skip : ∀ (nodes : List Node) (init : Int) (e : Nat),
    (∀ n ∈ nodes, n.exponent ≠ e) →
    nodes.foldl (fun acc n => if n.exponent = e then n.coefficient else acc) init = init := by
  intro nodes
  induction nodes with
  | nil => intro init e _; rfl
  | cons n rest ih =>
    intro init e h
    rw [List.foldl_cons, if_neg (h n (List.mem_cons_self n rest))]
    exact ih init e (fun m hm => h m (List.mem_cons_of_mem n hm))

end PolySrc

namespace PolySrc

lemma exp_ge_of_mem_filterNodes (c : List Int) (k : Nat) (n : Node)
    (h : n ∈ ((List.enumFrom k c).filter (fun pc => pc.2 != 0)).map nodeSigned) :
    k ≤ n.exponent := by
  obtain ⟨u, hu, hn⟩ := List.mem_map.mp h
  have hmem : u ∈ List.enumFrom k c := List.mem_of_mem_filter hu
  have := fst_ge_enumFrom c k u hmem
  rw [← hn]
  exact this

lemma coeffAt_filter : ∀ (c : List Int) (k e : Nat),
    coeffAt (((List.enumFrom k c).filter (fun pc => pc.2 != 0)).map nodeSigned) e
      = if k ≤ e ∧ e < k + c.length then c.getD (e - k) 0 else 0 := by
  intro c
  induction c with
  | nil =>
    intro k e
    rw [if_neg (by simp)]
    rfl
  | cons a c' ih =>
    intro k e
    rw [List.enumFrom_cons, List.filter_cons]
    by_cases ha : a = 0
    · rw [if_neg (by simp [ha])]
      rw [ih (k + 1) e]
      by_cases hek : e = k
      · subst hek
        rw [if_neg (by omega), if_pos (by simp only [List.length_cons]; omega),
          Nat.sub_self, List.getD_cons_zero, ha]
      · by_cases hin : k + 1 ≤ e ∧ e < k + 1 + c'.length
        · rw [if_pos hin, if_pos (by simp only [List.length_cons]; omega)]
          have : e - k = (e - (k + 1)) + 1 := by omega
          rw [this, List.getD_cons_succ]
        · rw [if_neg hin, if_neg (by simp only [List.length_cons]; omega)]
    · rw [if_pos (by simp [ha]), List.map_cons]
      show List.foldl _ (if (nodeSigned (k, a)).exponent = e
          then (nodeSigned (k, a)).coefficient else 0) _ = _
      by_cases hek : e = k
      · subst hek
        rw [show (nodeSigned (e, a)).exponent = e from rfl] at *
        rw [if_pos rfl]
        show List.foldl _ a _ = _
        rw [coeffAt_skip _ a e (fun n hn => by
          have := exp_ge_of_mem_filterNodes c' (e + 1) n hn
          omega)]
        rw [if_pos (by simp only [List.length_cons]; omega), Nat.sub_self,
          List.getD_cons_zero]
      · rw [if_neg (by
          show (nodeSigned (k, a)).exponent ≠ e
          simpa [nodeSigned] using fun hh => hek hh.symm)]
        have hrec := ih (k + 1) e
        rw [show coeffAt (((List.enumFrom (k + 1) c').filter (fun pc => pc.2 != 0)).map
            nodeSigned) e = List.foldl
            (fun acc n => if n.exponent = e then n.coefficient else acc) 0
            (((List.enumFrom (k + 1) c').filter (fun pc => pc.2 != 0)).map nodeSigned)
          from rfl] at hrec
        rw [hrec]
        by_cases hin : k + 1 ≤ e ∧ e < k + 1 + c'.length
        · rw [if_pos hin, if_pos (by simp only [List.length_cons]; omega)]
          have : e - k = (e - (k + 1)) + 1 := by omega
          rw [this, List.getD_cons_succ]
        · rw [if_neg hin, if_neg (by simp only [List.length_cons]; omega)]

end PolySrc

namespace PolySrc

/-- C6 counterexample: the round trip fails for `c = [2, 0]` — the trailing
zero coefficient renders as nothing, so re-parsing yields `[2]`, not
`[2, 0]`. -/
theorem C6_counterexample :
    from_string ((Polynomial.make [2, 0] none).toStr) = .ok ⟨[2], "x"⟩
    ∧ (Polynomial.mk [2] "x").coeffs ≠ [2, 0] := by
  decide

lemma ns_getLast (c : List Int) (y : Int) (hy : c.getLast? = some y) (hyne : y ≠ 0) :
    ((c.enum.filter (fun pc => pc.2 != 0)).map nodeSigned).getLast?
      = some (nodeSigned (c.length - 1, y)) := by
  have h1 : (List.enumFrom 0 c).getLast? = some (0 + c.length - 1, y) := by
    rw [getLast?_enumFrom c 0, hy]
    rfl
  have h2 : ((List.enumFrom 0 c).filter (fun pc => pc.2 != 0)).getLast?
      = some (0 + c.length - 1, y) :=
    filter_last_mem _ _ h1 (by simp [hyne])
  rw [enum_eq, List.getLast?_map, h2]
  show some (nodeSigned (0 + c.length - 1, y)) = _
  rw [Nat.zero_add]

lemma buildPoly_eval (n0 : Node) (rest : List Node) (w : Option String)
    (hdup : checkDup (n0 :: rest) [] = .ok ())
    (hvar : checkVar (n0 :: rest) none = .ok w) :
    buildPoly (n0 :: rest) = .ok (Polynomial.make
      ((List.range (maxExponent n0 rest + 1)).map (coeffAt (n0 :: rest)))
      (some (w.getD "x"))) := by
  rw [buildPoly, hdup, hvar]

/-- C6 as amended: the round trip `parse ∘ to_string` reproduces the
coefficient sequence exactly for every integer sequence `c` whose last
coefficient is nonzero (no trailing zeros, which would be dropped), whose
first nonzero coefficient is positive (a leading minus sign cannot be
re-parsed), and whose constant coefficient is not 1 (which would render as an
empty term).  The resulting polynomial is exactly `⟨c, "x"⟩`. -/
theorem C6_amended (c : List Int) (hlast : c.getLastD 0 ≠ 0)
    (hfz : 0 < c.getD (c.findIdx (fun x => x != 0)) 0)
    (h0 : c.getD 0 0 ≠ 1) :
    from_string ((Polynomial.make c none).toStr) = .ok ⟨c, "x"⟩ := by
  -- the sequence is non-empty and its last entry is a nonzero member
  have hcne : c ≠ [] := by
    intro h
    rw [h] at hlast
    exact hlast rfl
  obtain ⟨y, hy⟩ : ∃ y, c.getLast? = some y := by
    cases hgl : c.getLast? with
    | none => exact absurd (List.getLast?_eq_none_iff.mp hgl) hcne
    | some y => exact ⟨y, rfl⟩
  have hyne : y ≠ 0 := by
    rw [List.getLastD_eq_getLast?, hy] at hlast
    exact hlast
  have hymem : y ∈ c := List.mem_of_mem_getLast? hy
  -- the filtered enumeration has the first nonzero coefficient at its head
  obtain ⟨ts, hT0⟩ := head_filter_enum c 0 ⟨y, hymem, hyne⟩
  have hT : c.enum.filter (fun pc => pc.2 != 0)
      = (c.findIdx (fun x => x != 0), c.getD (c.findIdx (fun x => x != 0)) 0) :: ts := by
    rw [enum_eq, hT0]
    rw [Nat.zero_add]
  set j0 := c.findIdx (fun x => x != 0) with hj0
  set t0 : Nat × Int := (j0, c.getD j0 0) with ht0
  have hpos : 0 < t0.2 := hfz
  have hne1 : ¬(t0.1 = 0 ∧ t0.2 = 1) := by
    intro hab
    have ha : j0 = 0 := hab.1
    have hb : c.getD j0 0 = 1 := hab.2
    rw [ha] at hb
    exact h0 hb
  -- pairwise increasing powers on the filtered list
  have hpw0 : (c.enum.filter (fun pc => pc.2 != 0)).Pairwise
      (fun a b : Nat × Int => a.1 < b.1) := by
    rw [enum_eq]
    exact List.Pairwise.filter _ (pairwise_fst_enumFrom c 0)
  rw [hT] at hpw0
  have hts : ∀ u ∈ ts, u.2 ≠ 0 ∧ u.1 ≠ 0 := by
    intro u hu
    constructor
    · have humem : u ∈ c.enum.filter (fun pc => pc.2 != 0) := by
        rw [hT]
        exact List.mem_cons_of_mem _ hu
      have := List.of_mem_filter humem
      simpa using this
    · have := List.rel_of_pairwise_cons hpw0 hu
      omega
  -- the rendered string and its parse
  have hrender := toStr_eq_render c t0 ts hT hpos hne1 hts
  have hfs : from_string ⟨bodyChars t0 ++ tailChars ts⟩ = normalizeAst (itemsOf t0 ts) := by
    rw [from_string, parseTermList_terms t0 ts]
  rw [hrender, hfs, normalizeAst,
    normalizeSigns_items t0 ts (le_of_lt hpos) (fun u hu => (hts u hu).1)]
  -- the node list is the image of the filtered list and is strictly increasing
  have hnsmap : nodeSigned t0 :: ts.map nodeSigned
      = (c.enum.filter (fun pc => pc.2 != 0)).map nodeSigned := by
    rw [hT, List.map_cons]
  have hpwN : (nodeSigned t0 :: ts.map nodeSigned).Pairwise
      (fun a b : Node => a.exponent < b.exponent) := by
    rw [show nodeSigned t0 :: ts.map nodeSigned = (t0 :: ts).map nodeSigned from rfl]
    exact List.pairwise_map.mpr hpw0
  rw [sortNodes_sorted _ (hpwN.imp le_of_lt)]
  have hdup : checkDup (nodeSigned t0 :: ts.map nodeSigned) [] = .ok () :=
    checkDup_ok _ [] (hpwN.imp Nat.ne_of_lt) (fun n _ h => by simp at h)
  -- the variable check returns either none or "x"
  have hvars : ∀ m ∈ ts.map nodeSigned, m.var_name = some "x" := by
    intro m hm
    obtain ⟨u, hu, hmu⟩ := List.mem_map.mp hm
    rw [← hmu]
    show varOf u.1 = some "x"
    rw [varOf, if_neg (hts u hu).2]
  obtain ⟨w, hw, hwx⟩ := checkVar_opt (ts.map nodeSigned) hvars
    ((nodeSigned t0).var_name) (by
      show (varOf t0.1 = none ∨ varOf t0.1 = some "x")
      rw [varOf]
      by_cases h : t0.1 = 0
      · exact Or.inl (if_pos h)
      · exact Or.inr (if_neg h))
  have hvar : checkVar (nodeSigned t0 :: ts.map nodeSigned) none = .ok w := by
    rw [show checkVar (nodeSigned t0 :: ts.map nodeSigned) none
        = checkVar (ts.map nodeSigned) (nodeSigned t0).var_name from by rw [checkVar]]
    exact hw
  rw [buildPoly_eval _ _ w hdup hvar]
  -- the largest exponent is the last index of c
  have hchain : List.Chain' (fun a b : Node => a.exponent < b.exponent)
      (nodeSigned t0 :: ts.map nodeSigned) := hpwN.chain'
  have hmax : maxExponent (nodeSigned t0) (ts.map nodeSigned) = c.length - 1 := by
    rw [maxExponent_chain _ _ hchain]
    have hlastns := ns_getLast c y hy hyne
    rw [← hnsmap, List.getLast?_cons] at hlastns
    have : (ts.map nodeSigned).getLastD (nodeSigned t0) = nodeSigned (c.length - 1, y) := by
      have h2 := hlastns
      rw [List.getLastD_eq_getLast?]
      cases hgl : (ts.map nodeSigned).getLast? with
      | none =>
        rw [hgl] at h2
        simp at h2
        rw [h2]
        rfl
      | some z =>
        rw [hgl] at h2
        simp at h2
        rw [h2]
        rfl
    rw [this]
    rfl
  rw [hmax]
  -- the rebuilt coefficient list is c itself
  have hcoeffs : (List.range (c.length - 1 + 1)).map
      (coeffAt (nodeSigned t0 :: ts.map nodeSigned)) = c := by
    have hlen1 : 1 ≤ c.length := by
      cases c with
      | nil => exact absurd rfl hcne
      | cons a c' => simp
    have hlen : c.length - 1 + 1 = c.length := by omega
    rw [hlen]
    apply List.ext_getElem
    · rw [List.length_map, List.length_range]
    · intro n h1 h2
      rw [List.getElem_map, List.getElem_range]
      have := coeffAt_filter c 0 n
      rw [show ((List.enumFrom 0 c).filter (fun pc => pc.2 != 0)).map nodeSigned
          = nodeSigned t0 :: ts.map nodeSigned from by rw [← enum_eq, hnsmap]] at this
      rw [this, if_pos (by constructor <;> omega), Nat.sub_zero,
        List.getD_eq_getElem _ _ h2]
  rw [hcoeffs, hwx]
  show Except.ok (Polynomial.mk c (if ("x" : String) = "" then "x" else "x")) = _
  rw [if_neg (by decide)]

/-- C6 witness: the amended round trip at the concrete sequence from the
spec's own example. -/
theorem C6_amended_witness :
    from_string ((Polynomial.make [5, -4, 0, 3] none).toStr) = .ok ⟨[5, -4, 0, 3], "x"⟩ :=
  C6_amended [5, -4, 0, 3] (by decide) (by decide) (by decide)

end PolySrc
